import Mathlib

/-!
Verification of `axlearn/common/serialization.py` (adapted from `flax.serialization`).

We shallowly embed the Python module: Python values that participate in
serialization are modelled by the inductive type `PyVal` (opaque leaf values,
lists, tuples, dicts, namedtuples, and `jax.tree_util.Partial` values);
Python exceptions are modelled by `Except SerError`; the thread-local error
path stack is passed explicitly as a `List String` argument; the f-string
messages of the raised `ValueError`s are modelled by the structured
constructors of `SerError` together with the rendering function
`SerError.message` which mirrors the interpolations of the source.

Dict keys in the source may be arbitrary hashable Python values that are
stringified with `str`; the keys exercised by the module are ints and
strings, modelled by `PyKey` with `pyStr` as Python's `str`.
-/

namespace Serialization

/-- Python decimal digits of `n`, most significant first: the character list
of Python's `str(n)` for a natural number (`str` of an `int` prints base 10). -/
def pyNatRepr (n : Nat) : List Char :=
  if n < 10 then [Nat.digitChar n]
  else pyNatRepr (n / 10) ++ [Nat.digitChar (n % 10)]
termination_by n
decreasing_by exact Nat.div_lt_self (by omega) (by omega)

/-- Python's `str` on a natural number: decimal rendering, which is exactly
Lean core's `Nat.repr`.  (`pyNatRepr` above is the recursive specification;
the two agree, see `pyNatStr_eq_pyNatRepr` below.) -/
def pyNatStr (n : Nat) : String :=
  Nat.repr n

/-- Python's `str` on an `int` (negative numbers render with a leading minus). -/
def pyIntStr : Int → String
  | .ofNat n => pyNatStr n
  | .negSucc m => "-" ++ pyNatStr (m + 1)

/-- A Python dict key as used by this module: a string or an int.
Python equality distinguishes `1` from `"1"`, as the constructors do. -/
inductive PyKey where
  | s (v : String)
  | i (v : Int)
deriving DecidableEq, Repr

/-- Python's `str` on a key. -/
def pyStr : PyKey → String
  | .s v => v
  | .i v => pyIntStr v

/-- Python's name of the type of a key (`type(key)` rendering). -/
def pyTypeName : PyKey → String
  | .s _ => "str"
  | .i _ => "int"

/-- The Python values handled by the module: leaves (values of unregistered
types, here opaque ints/strings), and the registered container types
`list`, `tuple`, `dict`, namedtuples (tuples exposing `_fields`), and
`jax.tree_util.Partial` (an opaque function reference, identified by a
number, plus positional args and keyword args). -/
inductive PyVal where
  | leaf (v : PyKey)
  | list (xs : List PyVal)
  | tuple (xs : List PyVal)
  | dict (entries : List (PyKey × PyVal))
  | namedtuple (tyName : String) (fields : List (String × PyVal))
  | partialApp (func : Nat) (args : PyVal) (keywords : PyVal)

/-- The exceptions raised by the module (all `ValueError`s in the source,
plus the `KeyError`/`TypeError`/`AttributeError` Python itself would raise
on malformed states).  Each constructor carries exactly the data the
corresponding f-string interpolates; `SerError.message` renders it. -/
inductive SerError where
  /-- `to_state_dict`: a produced state dict has a non-string key. -/
  | invalidKey (key : PyKey)
  /-- `register_serialization_state`: duplicate registration without override. -/
  | duplicateRegistration (tyName : String)
  /-- `_dict_state_dict`: two distinct keys have the same string form. -/
  | keyCollision (strKeys : List String)
  /-- `_restore_list`: size of the list and the state dict differ. -/
  | lengthMismatch (targetLen stateLen : Nat) (path : String)
  /-- `_restore_dict`: target keys whose string form is absent from the state. -/
  | missingKeys (missing : List String) (path : String)
  /-- `_restore_namedtuple`: state keys differ from the namedtuple fields. -/
  | fieldMismatch (stateKeys : List PyKey) (fieldKeys : List String) (path : String)
  /-- Python `KeyError` from a `state_dict[k]` subscript. -/
  | keyError (key : String)
  /-- Python `TypeError` (e.g. `len` or subscript of a non-mapping state). -/
  | typeError (msg : String)
  /-- Python `AttributeError` from `getattr`. -/
  | attributeError (name : String)
deriving DecidableEq, Repr

/-- Rendering of a `PyKey` list the way the error messages display key sets. -/
def renderKeys (ks : List PyKey) : String :=
  String.intercalate ", " (ks.map pyStr)

/-- Rendering of a string list the way the error messages display string sets. -/
def renderStrs (ks : List String) : String :=
  String.intercalate ", " ks

/-- The error message of each exception, mirroring the f-strings of the source. -/
def SerError.message : SerError → String
  | .invalidKey key =>
      "A state dict must only have string keys. Instead, encountered key " ++
        pyStr key ++ " of type " ++ pyTypeName key ++ "."
  | .duplicateRegistration tyName =>
      "A serialization handler for \"" ++ tyName ++ "\" is already registered."
  | .keyCollision strKeys =>
      "Dict keys do not have a unique string representation: " ++ renderStrs strKeys
  | .lengthMismatch targetLen stateLen path =>
      "The size of the list and the state dict do not match, got " ++
        pyNatStr targetLen ++ " and " ++ pyNatStr stateLen ++ " at path " ++ path
  | .missingKeys missing path =>
      "The target dict keys and state dict keys do not match, target dict contains keys " ++
        renderStrs missing ++ " which are not present in state dict at path " ++ path
  | .fieldMismatch stateKeys fieldKeys path =>
      "The field names of the state dict and the named tuple do not match, got " ++
        renderKeys stateKeys ++ " and " ++ renderStrs fieldKeys ++ " at path " ++ path
  | .keyError key => "KeyError: " ++ key
  | .typeError msg => "TypeError: " ++ msg
  | .attributeError name => "AttributeError: " ++ name

/-- `current_path()`: the `/`-joined path stack used in error messages. -/
def current_path (path : List String) : String :=
  String.intercalate "/" path

/-- Python dict subscript `sd[k]` on a (string-or-int keyed) mapping:
the value of the entry whose key equals `k`, if any. -/
def dictGet (sd : List (PyKey × PyVal)) (k : PyKey) : Option PyVal :=
  match sd.find? (fun p => decide (p.1 = k)) with
  | some p => some p.2
  | none => none

/-- The postcondition check of `to_state_dict` (source lines 74-80): if the
converter produced a dict, every key must be a string; the loop raises on
the first non-string key it encounters. -/
def checkStateDictKeys (state_dict : PyVal) : Except SerError PyVal :=
  match state_dict with
  | .dict es =>
      match es.find? (fun p => decide (pyTypeName p.1 ≠ "str")) with
      | some p => .error (.invalidKey p.1)
      | none => .ok (.dict es)
  | other => .ok other

/-- `1 ≤ sizeOf l` for any list, used by the termination measures below. -/
theorem one_le_sizeOf_list {α : Type} [SizeOf α] (l : List α) : 1 ≤ sizeOf l := by
  cases l <;> simp_arith

mutual

/-- `to_state_dict` (source lines 54-81): dispatch on the runtime type of the
target (with the `_is_namedtuple` duck-typing test taking precedence), call
the registered converter, pass unregistered values (leaves) through
unchanged, and run the string-key postcondition check on the result. -/
def to_state_dict (target : PyVal) : Except SerError PyVal :=
  match target with
  | .leaf v => .ok (.leaf v)
  | .namedtuple _ fields =>
      match _namedtuple_state_dict fields with
      | .error e => .error e
      | .ok sd => checkStateDictKeys sd
  | .dict es =>
      match _dict_state_dict es with
      | .error e => .error e
      | .ok sd => checkStateDictKeys sd
  | .list xs =>
      match _list_state_dict xs with
      | .error e => .error e
      | .ok sd => checkStateDictKeys sd
  | .tuple xs =>
      match _list_state_dict xs with
      | .error e => .error e
      | .ok sd => checkStateDictKeys sd
  | .partialApp _ args kws =>
      match ((match to_state_dict args with
              | .error e => .error e
              | .ok sa =>
                  match to_state_dict kws with
                  | .error e => .error e
                  | .ok sk =>
                      .ok (.dict [(.s "args", sa), (.s "keywords", sk)])) :
              Except SerError PyVal) with
      | .error e => .error e
      | .ok sd => checkStateDictKeys sd

/-- `_list_state_dict` (source lines 131-132): a dict mapping `str(i)` to
the encoding of the i-th element. -/
def _list_state_dict (xs : List PyVal) : Except SerError PyVal :=
  match list_items 0 xs with
  | .error e => .error e
  | .ok entries => .ok (.dict entries)

/-- The `enumerate` comprehension of `_list_state_dict`, starting at index `i`. -/
def list_items (i : Nat) (xs : List PyVal) : Except SerError (List (PyKey × PyVal)) :=
  match xs with
  | [] => .ok []
  | x :: rest =>
      match to_state_dict x with
      | .error e => .error e
      | .ok v =>
          match list_items (i + 1) rest with
          | .error e => .error e
          | .ok tail => .ok ((.s (pyNatStr i), v) :: tail)

/-- `_dict_state_dict` (source lines 144-150): fail if two keys collapse to
the same string, else map `str(key)` to the encoding of each value. -/
def _dict_state_dict (xs : List (PyKey × PyVal)) : Except SerError PyVal :=
  let str_keys := (xs.map (fun p => pyStr p.1)).dedup
  if str_keys.length ≠ xs.length then
    .error (.keyCollision str_keys)
  else
    match dict_items xs with
    | .error e => .error e
    | .ok entries => .ok (.dict entries)

/-- The comprehension of `_dict_state_dict`. -/
def dict_items (xs : List (PyKey × PyVal)) : Except SerError (List (PyKey × PyVal)) :=
  match xs with
  | [] => .ok []
  | (k, v) :: rest =>
      match to_state_dict v with
      | .error e => .error e
      | .ok w =>
          match dict_items rest with
          | .error e => .error e
          | .ok tail => .ok ((.s (pyStr k), w) :: tail)

/-- `_namedtuple_state_dict` (source lines 167-168): map each field name to
the encoding of the corresponding field value. -/
def _namedtuple_state_dict (fields : List (String × PyVal)) : Except SerError PyVal :=
  match nt_items fields with
  | .error e => .error e
  | .ok entries => .ok (.dict entries)

/-- The comprehension of `_namedtuple_state_dict`. -/
def nt_items (fields : List (String × PyVal)) : Except SerError (List (PyKey × PyVal)) :=
  match fields with
  | [] => .ok []
  | (k, v) :: rest =>
      match to_state_dict v with
      | .error e => .error e
      | .ok w =>
          match nt_items rest with
          | .error e => .error e
          | .ok tail => .ok ((.s k, w) :: tail)

end

/-- The encode lambda registered for `jax.tree_util.Partial` (source line 193):
a dict with the encodings of the args tuple (`x.args`) and of the keywords
dict (`x.keywords`).  (Inlined in the `partialApp` case of `to_state_dict`
above; this definition names the lambda for the registry model.) -/
def _partial_app_state_dict (args kws : PyVal) : Except SerError PyVal :=
  match to_state_dict args with
  | .error e => .error e
  | .ok sa =>
      match to_state_dict kws with
      | .error e => .error e
      | .ok sk => .ok (.dict [(.s "args", sa), (.s "keywords", sk)])

/-- Python `getattr(xs, k)` on a namedtuple modelled by its field list. -/
def lookupStr (l : List (String × PyVal)) (k : String) : Option PyVal :=
  match l.find? (fun p => decide (p.1 = k)) with
  | some p => some p.2
  | none => none

/-- Python `*`-unpacking of the decoded args into positional arguments.
For this module the decoded value is always a tuple (the decode of the
target's args tuple); Python would also iterate a list. -/
def splatArgs : PyVal → Except SerError (List PyVal)
  | .tuple ys => .ok ys
  | .list ys => .ok ys
  | _ => .error (.typeError "argument after * must be an iterable")

/-- Python `**`-unpacking of the decoded keywords dict: every key must be a
string. -/
def splatKeywords : PyVal → Except SerError (List (PyKey × PyVal))
  | .dict es =>
      match es.find? (fun p => decide (pyTypeName p.1 ≠ "str")) with
      | some _ => .error (.typeError "keywords must be strings")
      | none => .ok es
  | _ => .error (.typeError "argument after ** must be a mapping")

/-- `type(xs)(**fields)`: rebuild a namedtuple of the target's type from the
decoded fields, binding each declared field name (in declaration order) to
its decoded value. -/
def build_nt_fields (decoded : List (String × PyVal)) :
    List (String × PyVal) → Option (List (String × PyVal))
  | [] => some []
  | (f, _) :: rest =>
      match lookupStr decoded f with
      | none => none
      | some v =>
          match build_nt_fields decoded rest with
          | none => none
          | some tail => some ((f, v) :: tail)

mutual

/-- `from_state_dict` (source lines 84-105): dispatch on the runtime type of
the target (namedtuple duck-typing first); unregistered targets (leaves)
return the state unchanged; registered targets push `name` onto the path
stack and run the registered restore function. -/
def from_state_dict (target state : PyVal) (name : String) (path : List String) :
    Except SerError PyVal :=
  match target with
  | .leaf _ => .ok state
  | .namedtuple tyName fields => _restore_namedtuple tyName fields state (path ++ [name])
  | .dict es => _restore_dict es state (path ++ [name])
  | .list xs =>
      match _restore_list xs state (path ++ [name]) with
      | .error e => .error e
      | .ok ys => .ok (.list ys)
  | .tuple xs =>
      match _restore_list xs state (path ++ [name]) with
      | .error e => .error e
      | .ok ys => .ok (.tuple ys)
  | .partialApp func args kws => _restore_partial_app func args kws state (path ++ [name])
termination_by (3 * sizeOf target, 0)
decreasing_by
  all_goals simp_wf
  all_goals (apply Prod.Lex.left; omega)

/-- `_restore_list` (source lines 135-141): require the state dict to have
as many entries as the list, then restore index `i` from `state[str(i)]`.
A non-mapping state raises a Python `TypeError` at `len(state_dict)`. -/
def _restore_list (xs : List PyVal) (state : PyVal) (path : List String) :
    Except SerError (List PyVal) :=
  match state with
  | .dict sd =>
      if sd.length ≠ xs.length then
        .error (.lengthMismatch xs.length sd.length (current_path path))
      else
        restore_list_items sd path 0 xs
  | _ => .error (.typeError "object is not a state dict")
termination_by (3 * sizeOf xs + 2, 0)
decreasing_by
  all_goals simp_wf
  all_goals (apply Prod.Lex.left; omega)

/-- The comprehension of `_restore_list`: `from_state_dict(xs[i],
state_dict[str(i)], name=str(i))` for each index in order. -/
def restore_list_items (sd : List (PyKey × PyVal)) (path : List String) (i : Nat)
    (xs : List PyVal) : Except SerError (List PyVal) :=
  match xs with
  | [] => .ok []
  | x :: rest =>
      match dictGet sd (.s (pyNatStr i)) with
      | none => .error (.keyError (pyNatStr i))
      | some sv =>
          match from_state_dict x sv (pyNatStr i) path with
          | .error e => .error e
          | .ok y =>
              match restore_list_items sd path (i + 1) rest with
              | .error e => .error e
              | .ok ys => .ok (y :: ys)
termination_by (3 * sizeOf xs + 1, 0)
decreasing_by
  all_goals simp_wf
  all_goals (apply Prod.Lex.left; omega)

/-- `_restore_dict` (source lines 153-164): fail listing the target keys
whose string form is absent from the state, else restore each entry under
its original key from `state[str(key)]`. -/
def _restore_dict (xs : List (PyKey × PyVal)) (state : PyVal) (path : List String) :
    Except SerError PyVal :=
  match state with
  | .dict sd =>
      let diff := ((xs.map (fun p => pyStr p.1)).dedup).filter
        (fun s => !(sd.any (fun q => decide (q.1 = PyKey.s s))))
      if diff ≠ [] then
        .error (.missingKeys diff (current_path path))
      else
        match restore_dict_items sd path xs with
        | .error e => .error e
        | .ok entries => .ok (.dict entries)
  | _ => .error (.typeError "object is not a state dict")
termination_by (3 * sizeOf xs + 2, 0)
decreasing_by
  all_goals simp_wf
  all_goals (apply Prod.Lex.left; omega)

/-- The comprehension of `_restore_dict`. -/
def restore_dict_items (sd : List (PyKey × PyVal)) (path : List String)
    (xs : List (PyKey × PyVal)) : Except SerError (List (PyKey × PyVal)) :=
  match xs with
  | [] => .ok []
  | (k, v) :: rest =>
      match dictGet sd (.s (pyStr k)) with
      | none => .error (.keyError (pyStr k))
      | some sv =>
          match from_state_dict v sv (pyStr k) path with
          | .error e => .error e
          | .ok y =>
              match restore_dict_items sd path rest with
              | .error e => .error e
              | .ok tail => .ok ((k, y) :: tail)
termination_by (3 * sizeOf xs + 1, 0)
decreasing_by
  all_goals simp_wf
  all_goals (apply Prod.Lex.left; omega)

/-- `_restore_namedtuple` (source lines 171-180): require the state keys to
equal the field names as sets, restore each state entry against the
corresponding field (`getattr`), then rebuild `type(xs)(**fields)`. -/
def _restore_namedtuple (tyName : String) (fs : List (String × PyVal)) (state : PyVal)
    (path : List String) : Except SerError PyVal :=
  match state with
  | .dict sd =>
      let state_keys := sd.map (fun p => p.1)
      let namedtuple_keys := fs.map (fun p => PyKey.s p.1)
      if !(state_keys.all (fun k => decide (k ∈ namedtuple_keys)) &&
           namedtuple_keys.all (fun k => decide (k ∈ state_keys))) then
        .error (.fieldMismatch state_keys (fs.map (fun p => p.1)) (current_path path))
      else
        match restore_nt_items fs path sd with
        | .error e => .error e
        | .ok decoded =>
            match build_nt_fields decoded fs with
            | none => .error (.typeError "missing required argument")
            | some fields2 => .ok (.namedtuple tyName fields2)
  | _ => .error (.typeError "object is not a state dict")
termination_by (3 * sizeOf fs + 2, 0)
decreasing_by
  all_goals simp_wf
  all_goals (apply Prod.Lex.left; omega)

/-- The comprehension of `_restore_namedtuple`, iterating the state dict
entries: `from_state_dict(getattr(xs, k), v, name=k)`. -/
def restore_nt_items (fs : List (String × PyVal)) (path : List String)
    (sd : List (PyKey × PyVal)) : Except SerError (List (String × PyVal)) :=
  match sd with
  | [] => .ok []
  | (k, sv) :: rest =>
      match k with
      | .i _ => .error (.typeError "attribute name must be a string")
      | .s ks =>
          match decode_field fs ks sv path with
          | .error e => .error e
          | .ok y =>
              match restore_nt_items fs path rest with
              | .error e => .error e
              | .ok tail => .ok ((ks, y) :: tail)
termination_by (3 * sizeOf fs + 1, sizeOf sd)
decreasing_by
  all_goals simp_wf
  · apply Prod.Lex.right; omega
  · apply Prod.Lex.right; omega

/-- `from_state_dict(getattr(xs, ks), sv, name=ks)`: `getattr` scans the
namedtuple's fields for the one named `ks` and the decode runs on its
value; an absent field is a Python `AttributeError`. -/
def decode_field (fs : List (String × PyVal)) (ks : String) (sv : PyVal)
    (path : List String) : Except SerError PyVal :=
  match fs with
  | [] => .error (.attributeError ks)
  | (f, fv) :: rest =>
      if f = ks then from_state_dict fv sv ks path
      else decode_field rest ks sv path
termination_by (3 * sizeOf fs + 1, 0)
decreasing_by
  all_goals simp_wf
  all_goals (apply Prod.Lex.left; omega)

/-- The decode lambda registered for `jax.tree_util.Partial` (source lines
194-198): rebuild a partial application bound to the target's original
function, with args and keywords decoded against the target's. -/
def _restore_partial_app (func : Nat) (args kws : PyVal) (state : PyVal)
    (path : List String) : Except SerError PyVal :=
  match state with
  | .dict sd =>
      match dictGet sd (.s "args") with
      | none => .error (.keyError "args")
      | some sdArgs =>
          match from_state_dict args sdArgs "." path with
          | .error e => .error e
          | .ok decodedArgs =>
              match splatArgs decodedArgs with
              | .error e => .error e
              | .ok argList =>
                  match dictGet sd (.s "keywords") with
                  | none => .error (.keyError "keywords")
                  | some sdKws =>
                      match from_state_dict kws sdKws "." path with
                      | .error e => .error e
                      | .ok decodedKws =>
                          match splatKeywords decodedKws with
                          | .error e => .error e
                          | .ok kwList =>
                              .ok (.partialApp func (.tuple argList) (.dict kwList))
  | _ => .error (.typeError "object is not a state dict")
termination_by (3 * (sizeOf args + sizeOf kws) + 2, 0)
decreasing_by
  all_goals simp_wf
  all_goals (apply Prod.Lex.left; omega)

end

/-! ### The registry, explicitly

`_STATE_DICT_REGISTRY` is a module-level Python dict from types to
`(ty_to_state_dict, ty_from_state_dict)` pairs.  We model registry keys by
`TypeTag` (the `_NamedTuple` marker class is the single sentinel tag shared
by all namedtuple types) and the registry by an association list with
Python-dict semantics (`in`, subscript read, subscript assignment).  The
recursive `to_state_dict`/`from_state_dict` above are the two entry points
specialized to the module's built-in registration calls (source lines
183-199); `to_state_dict_with`/`from_state_dict_with` below are the same
entry points with the registry as an explicit parameter, and
`builtinRegistry` packages the built-in converters, so that the
correspondence can be stated and proved. -/

/-- A registry key: a runtime type, or the `_NamedTuple` sentinel. -/
inductive TypeTag where
  | dictTag
  | listTag
  | tupleTag
  | namedTupleTag
  | partialTag
  | otherTag (n : String)
deriving DecidableEq, Repr

/-- `ty.__name__`, used by the duplicate-registration error message. -/
def TypeTag.tyName : TypeTag → String
  | .dictTag => "dict"
  | .listTag => "list"
  | .tupleTag => "tuple"
  | .namedTupleTag => "_NamedTuple"
  | .partialTag => "Partial"
  | .otherTag n => n

/-- The registry key computed for a value (source lines 65-68 and 97-100):
the `_NamedTuple` sentinel if `_is_namedtuple(target)`, else `type(target)`.
Leaves model values of unregistered types. -/
def tagOf : PyVal → TypeTag
  | .namedtuple _ _ => .namedTupleTag
  | .leaf (.i _) => .otherTag "int"
  | .leaf (.s _) => .otherTag "str"
  | .list _ => .listTag
  | .tuple _ => .tupleTag
  | .dict _ => .dictTag
  | .partialApp _ _ _ => .partialTag

/-- Python `ty in _STATE_DICT_REGISTRY`. -/
def registryContains {α : Type} (reg : List (TypeTag × α)) (ty : TypeTag) : Bool :=
  reg.any (fun p => decide (p.1 = ty))

/-- Python `_STATE_DICT_REGISTRY[ty] = v`: replace the existing entry in
place, else append. -/
def registrySet {α : Type} (reg : List (TypeTag × α)) (ty : TypeTag) (v : α) :
    List (TypeTag × α) :=
  match reg with
  | [] => [(ty, v)]
  | (k, w) :: rest => if k = ty then (ty, v) :: rest else (k, w) :: registrySet rest ty v

/-- Python `_STATE_DICT_REGISTRY[ty]` read. -/
def registryLookup {α : Type} (reg : List (TypeTag × α)) (ty : TypeTag) : Option α :=
  match reg.find? (fun p => decide (p.1 = ty)) with
  | some p => some p.2
  | none => none

/-- `register_serialization_state` (source lines 108-125): raise on a
duplicate registration without `override`, else store the converter pair. -/
def register_serialization_state {β γ : Type} (reg : List (TypeTag × (β × γ)))
    (ty : TypeTag) (ty_to_state_dict : β) (ty_from_state_dict : γ)
    (override : Bool) : Except SerError (List (TypeTag × (β × γ))) :=
  if registryContains reg ty && !override then
    .error (.duplicateRegistration ty.tyName)
  else
    .ok (registrySet reg ty (ty_to_state_dict, ty_from_state_dict))

/-- The type of registered encode functions. -/
def EncodeFn : Type := PyVal → Except SerError PyVal

/-- The type of registered decode functions: target, state, and the path
stack after `name` has been pushed. -/
def DecodeFn : Type := PyVal → PyVal → List String → Except SerError PyVal

/-- `to_state_dict` with the registry explicit (source lines 54-81). -/
def to_state_dict_with {γ : Type} (reg : List (TypeTag × (EncodeFn × γ)))
    (target : PyVal) : Except SerError PyVal :=
  match registryLookup reg (tagOf target) with
  | none => .ok target
  | some conv =>
      match conv.1 target with
      | .error e => .error e
      | .ok sd => checkStateDictKeys sd

/-- `from_state_dict` with the registry explicit (source lines 84-105):
unregistered targets return the state unchanged without touching the path
stack; registered ones push `name` and run the registered decode function. -/
def from_state_dict_with {β : Type} (reg : List (TypeTag × (β × DecodeFn)))
    (target state : PyVal) (name : String) (path : List String) :
    Except SerError PyVal :=
  match registryLookup reg (tagOf target) with
  | none => .ok state
  | some conv => conv.2 target state (path ++ [name])

/-- The converter pair registered for `dict` (source line 183).  The
wrappers unpack the Python object into the model's constructor arguments;
the registered functions are only ever applied to values of their tag. -/
def dictConverters : EncodeFn × DecodeFn :=
  (fun t =>
    match t with
    | .dict es => _dict_state_dict es
    | _ => .error (.attributeError "keys"),
   fun t s path =>
    match t with
    | .dict es => _restore_dict es s path
    | _ => .error (.attributeError "keys"))

/-- The converter pair registered for `list` (source line 184). -/
def listConverters : EncodeFn × DecodeFn :=
  (fun t =>
    match t with
    | .list xs => _list_state_dict xs
    | _ => .error (.typeError "object is not a list"),
   fun t s path =>
    match t with
    | .list xs =>
        match _restore_list xs s path with
        | .error e => .error e
        | .ok ys => .ok (.list ys)
    | _ => .error (.typeError "object is not a list"))

/-- The converter pair registered for `tuple` (source lines 185-189): encode
via `_list_state_dict`, decode via `_restore_list` then rebuild a tuple. -/
def tupleConverters : EncodeFn × DecodeFn :=
  (fun t =>
    match t with
    | .tuple xs => _list_state_dict xs
    | _ => .error (.typeError "object is not a tuple"),
   fun t s path =>
    match t with
    | .tuple xs =>
        match _restore_list xs s path with
        | .error e => .error e
        | .ok ys => .ok (.tuple ys)
    | _ => .error (.typeError "object is not a tuple"))

/-- The converter pair registered for `_NamedTuple` (source line 190). -/
def namedTupleConverters : EncodeFn × DecodeFn :=
  (fun t =>
    match t with
    | .namedtuple _ fields => _namedtuple_state_dict fields
    | _ => .error (.attributeError "_fields"),
   fun t s path =>
    match t with
    | .namedtuple tyName fields => _restore_namedtuple tyName fields s path
    | _ => .error (.attributeError "_fields"))

/-- The converter pair registered for `jax.tree_util.Partial` (source lines
191-199). -/
def partialAppConverters : EncodeFn × DecodeFn :=
  (fun t =>
    match t with
    | .partialApp _ args kws => _partial_app_state_dict args kws
    | _ => .error (.attributeError "args"),
   fun t s path =>
    match t with
    | .partialApp func args kws => _restore_partial_app func args kws s path
    | _ => .error (.attributeError "args"))

/-- The registry after the module's built-in registration calls (source
lines 183-199), in registration order. -/
def builtinRegistry : List (TypeTag × (EncodeFn × DecodeFn)) :=
  [(.dictTag, dictConverters),
   (.listTag, listConverters),
   (.tupleTag, tupleConverters),
   (.namedTupleTag, namedTupleConverters),
   (.partialTag, partialAppConverters)]

mutual

/-- Well-formedness of a model value as the image of an actual Python value,
with the key-uniqueness the round-trip needs: dict keys have pairwise
distinct string forms (a Python dict also cannot hold duplicate keys),
namedtuple field names are distinct (as in any namedtuple type), and a
`Partial` holds a tuple of args and a string-keyed dict of keywords (as
`functools.partial`/`jax.tree_util.Partial` guarantee). -/
def wfB : PyVal → Bool
  | .leaf _ => true
  | .list xs => wfL xs
  | .tuple xs => wfL xs
  | .dict es => decide ((es.map (fun p => pyStr p.1)).Nodup) && wfKV es
  | .namedtuple _ fs => decide ((fs.map (fun p => p.1)).Nodup) && wfSV fs
  | .partialApp _ args kws =>
      (match args with
       | .tuple _ => true
       | _ => false) &&
      (match kws with
       | .dict es => es.all (fun p => decide (pyTypeName p.1 = "str"))
       | _ => false) &&
      wfB args && wfB kws
termination_by t => 3 * sizeOf t
decreasing_by
  all_goals simp_wf
  all_goals omega

/-- All list elements well-formed. -/
def wfL : List PyVal → Bool
  | [] => true
  | x :: rest => wfB x && wfL rest
termination_by xs => 3 * sizeOf xs + 1
decreasing_by
  all_goals simp_wf
  all_goals omega

/-- All dict values well-formed. -/
def wfKV : List (PyKey × PyVal) → Bool
  | [] => true
  | (_, v) :: rest => wfB v && wfKV rest
termination_by xs => 3 * sizeOf xs + 1
decreasing_by
  all_goals simp_wf
  all_goals omega

/-- All field values well-formed. -/
def wfSV : List (String × PyVal) → Bool
  | [] => true
  | (_, v) :: rest => wfB v && wfSV rest
termination_by xs => 3 * sizeOf xs + 1
decreasing_by
  all_goals simp_wf
  all_goals omega

end

/-! ## The decimal rendering: `pyNatStr` agrees with `pyNatRepr` and is
injective -/

/-- Unfolding of `pyNatRepr` below 10. -/
theorem pyNatRepr_lt {n : Nat} (h : n < 10) : pyNatRepr n = [Nat.digitChar n] := by
  rw [pyNatRepr, if_pos h]

/-- Unfolding of `pyNatRepr` at 10 and above. -/
theorem pyNatRepr_ge {n : Nat} (h : ¬ n < 10) :
    pyNatRepr n = pyNatRepr (n / 10) ++ [Nat.digitChar (n % 10)] := by
  conv_lhs => rw [pyNatRepr]
  rw [if_neg h]

/-- `pyNatRepr` never produces the empty list. -/
theorem pyNatRepr_ne_nil (n : Nat) : pyNatRepr n ≠ [] := by
  by_cases h : n < 10
  · simp [pyNatRepr_lt h]
  · simp [pyNatRepr_ge h]

/-- `Nat.toDigitsCore` with enough fuel produces `pyNatRepr` (accumulator
passed through). -/
theorem toDigitsCore_eq_pyNatRepr (fuel : Nat) :
    ∀ (n : Nat) (ds : List Char), n < fuel →
      Nat.toDigitsCore 10 fuel n ds = pyNatRepr n ++ ds := by
  induction fuel with
  | zero => intro n ds h; omega
  | succ fuel ih =>
      intro n ds _
      rw [Nat.toDigitsCore]
      by_cases h10 : n / 10 = 0
      · have hn : n < 10 := by omega
        rw [if_pos h10, pyNatRepr_lt hn, Nat.mod_eq_of_lt hn]
        simp
      · have hn : ¬ n < 10 := by
          intro hcon
          interval_cases n <;> simp_all
        have hlt : n / 10 < fuel := by
          have h1 : n / 10 < n := Nat.div_lt_self (by omega) (by omega)
          omega
        rw [if_neg h10, ih (n / 10) _ hlt, pyNatRepr_ge hn]
        simp

/-- `pyNatStr` (i.e. `Nat.repr`) agrees with the recursive specification. -/
theorem pyNatStr_eq_pyNatRepr (n : Nat) : pyNatStr n = ⟨pyNatRepr n⟩ := by
  have h := toDigitsCore_eq_pyNatRepr (n + 1) n [] (by omega)
  simp only [pyNatStr, Nat.repr, Nat.toDigits, h, List.append_nil]
  rfl

/-- `Nat.digitChar` is injective below 10. -/
theorem digitChar_inj : ∀ a < 10, ∀ b < 10, Nat.digitChar a = Nat.digitChar b → a = b := by
  decide

/-- The decimal rendering is injective. -/
theorem pyNatRepr_injective : ∀ (m n : Nat), pyNatRepr m = pyNatRepr n → m = n := by
  intro m
  induction m using Nat.strong_induction_on with
  | _ m ih =>
      intro n h
      by_cases hm : m < 10 <;> by_cases hn : n < 10
      · rw [pyNatRepr_lt hm, pyNatRepr_lt hn] at h
        simp only [List.cons.injEq, and_true] at h
        exact digitChar_inj m hm n hn h
      · rw [pyNatRepr_lt hm, pyNatRepr_ge hn] at h
        have hl := congrArg List.length h
        have hne := pyNatRepr_ne_nil (n / 10)
        cases hrep : pyNatRepr (n / 10) with
        | nil => exact absurd hrep hne
        | cons a l => rw [hrep] at hl; simp at hl
      · rw [pyNatRepr_ge hm, pyNatRepr_lt hn] at h
        have hl := congrArg List.length h
        have hne := pyNatRepr_ne_nil (m / 10)
        cases hrep : pyNatRepr (m / 10) with
        | nil => exact absurd hrep hne
        | cons a l => rw [hrep] at hl; simp at hl
      · rw [pyNatRepr_ge hm, pyNatRepr_ge hn] at h
        have hap := List.append_inj' h (by simp)
        have h1 : m / 10 = n / 10 :=
          ih (m / 10) (Nat.div_lt_self (by omega) (by omega)) (n / 10) hap.1
        have h2 : m % 10 = n % 10 := by
          have h3 := hap.2
          simp only [List.cons.injEq, and_true] at h3
          exact digitChar_inj _ (Nat.mod_lt _ (by omega)) _ (Nat.mod_lt _ (by omega)) h3
        omega

/-- Python's `str` on naturals is injective. -/
theorem pyNatStr_injective : ∀ (m n : Nat), pyNatStr m = pyNatStr n → m = n := by
  intro m n h
  rw [pyNatStr_eq_pyNatRepr, pyNatStr_eq_pyNatRepr] at h
  exact pyNatRepr_injective m n (by injection h)

/-! ## Coherence: the recursive entry points are the registry-parametric
entry points at the built-in registry -/

/-- `to_state_dict` is `to_state_dict_with` at the built-in registry. -/
theorem to_state_dict_eq_with (t : PyVal) :
    to_state_dict t = to_state_dict_with builtinRegistry t := by
  cases t with
  | leaf v =>
      cases v <;>
        simp [to_state_dict, to_state_dict_with, registryLookup, builtinRegistry, tagOf,
          List.find?]
  | list xs =>
      simp [to_state_dict, to_state_dict_with, registryLookup, builtinRegistry, tagOf,
        listConverters, List.find?]
  | tuple xs =>
      simp [to_state_dict, to_state_dict_with, registryLookup, builtinRegistry, tagOf,
        tupleConverters, List.find?]
  | dict es =>
      simp [to_state_dict, to_state_dict_with, registryLookup, builtinRegistry, tagOf,
        dictConverters, List.find?]
  | namedtuple n fs =>
      simp [to_state_dict, to_state_dict_with, registryLookup, builtinRegistry, tagOf,
        namedTupleConverters, List.find?]
  | partialApp f args kws =>
      simp [to_state_dict, to_state_dict_with, registryLookup, builtinRegistry, tagOf,
        partialAppConverters, _partial_app_state_dict, List.find?]

/-- `from_state_dict` is `from_state_dict_with` at the built-in registry. -/
theorem from_state_dict_eq_with (t s : PyVal) (name : String) (path : List String) :
    from_state_dict t s name path = from_state_dict_with builtinRegistry t s name path := by
  cases t with
  | leaf v =>
      cases v <;>
        simp [from_state_dict, from_state_dict_with, registryLookup, builtinRegistry, tagOf,
          List.find?]
  | list xs =>
      simp [from_state_dict, from_state_dict_with, registryLookup, builtinRegistry, tagOf,
        listConverters, List.find?]
  | tuple xs =>
      simp [from_state_dict, from_state_dict_with, registryLookup, builtinRegistry, tagOf,
        tupleConverters, List.find?]
  | dict es =>
      simp [from_state_dict, from_state_dict_with, registryLookup, builtinRegistry, tagOf,
        dictConverters, List.find?]
  | namedtuple n fs =>
      simp [from_state_dict, from_state_dict_with, registryLookup, builtinRegistry, tagOf,
        namedTupleConverters, List.find?]
  | partialApp f args kws =>
      simp [from_state_dict, from_state_dict_with, registryLookup, builtinRegistry, tagOf,
        partialAppConverters, List.find?]

/-! ## C2: pass-through for unregistered types -/

/-- C2: a value of an unregistered type (a leaf) has no registry entry;
`to_state_dict` returns it unchanged (no error) and `from_state_dict`
returns the state unchanged, for every state. -/
theorem c2_passthrough_unregistered (v : PyKey) (s : PyVal) (name : String)
    (path : List String) :
    registryLookup builtinRegistry (tagOf (.leaf v)) = none ∧
    to_state_dict (.leaf v) = .ok (.leaf v) ∧
    from_state_dict (.leaf v) s name path = .ok s := by
  refine ⟨?_, ?_, ?_⟩
  · cases v <;> simp [registryLookup, builtinRegistry, tagOf, List.find?]
  · simp [to_state_dict]
  · simp [from_state_dict]

/-! ## C7: string-key postcondition on converter results -/

/-- C7: if a registered encode function's result is a mapping, `to_state_dict`
raises an invalid-key error exactly when some top-level key is not a string;
the reported key is an offending key of the mapping and the message names it
and its type; a mapping with only string keys, and any non-mapping result,
is returned unchanged.  The last conjunct: every registered target's
converter result is routed through this check. -/
theorem c7_invalid_key_check :
    (∀ es : List (PyKey × PyVal),
      ((∃ p ∈ es, pyTypeName p.1 ≠ "str") ↔
        ∃ k, checkStateDictKeys (.dict es) = .error (.invalidKey k)) ∧
      (∀ k, checkStateDictKeys (.dict es) = .error (.invalidKey k) →
        k ∈ es.map Prod.fst ∧ pyTypeName k ≠ "str" ∧
        (SerError.invalidKey k).message =
          "A state dict must only have string keys. Instead, encountered key " ++
            pyStr k ++ " of type " ++ pyTypeName k ++ ".") ∧
      ((∀ p ∈ es, pyTypeName p.1 = "str") →
        checkStateDictKeys (.dict es) = .ok (.dict es))) ∧
    (∀ v : PyVal, (∀ es, v ≠ .dict es) → checkStateDictKeys v = .ok v) ∧
    (∀ (γ : Type) (reg : List (TypeTag × (EncodeFn × γ))) (target : PyVal) conv,
      registryLookup reg (tagOf target) = some conv →
      to_state_dict_with reg target =
        match conv.1 target with
        | .error e => .error e
        | .ok sd => checkStateDictKeys sd) := by
  refine ⟨fun es => ⟨?_, ?_, ?_⟩, ?_, ?_⟩
  · constructor
    · intro ⟨p, hmem, hp⟩
      have hsome : (es.find? (fun p => decide (pyTypeName p.1 ≠ "str"))).isSome := by
        rw [List.find?_isSome]
        exact ⟨p, hmem, by simpa using hp⟩
      rcases Option.isSome_iff_exists.mp hsome with ⟨q, hq⟩
      exact ⟨q.1, by rw [checkStateDictKeys, hq]⟩
    · intro ⟨k, hk⟩
      rw [checkStateDictKeys] at hk
      cases hfind : es.find? (fun p => decide (pyTypeName p.1 ≠ "str")) with
      | none => rw [hfind] at hk; exact absurd hk (by simp)
      | some q =>
          have hq := List.find?_some hfind
          have hmem := List.mem_of_find?_eq_some hfind
          exact ⟨q, hmem, by simpa using hq⟩
  · intro k hk
    rw [checkStateDictKeys] at hk
    cases hfind : es.find? (fun p => decide (pyTypeName p.1 ≠ "str")) with
    | none => rw [hfind] at hk; exact absurd hk (by simp)
    | some q =>
        rw [hfind] at hk
        have hq := List.find?_some hfind
        have hmem := List.mem_of_find?_eq_some hfind
        have hkq : k = q.1 := by
          injection hk with hk2
          injection hk2 with hk3
          exact hk3.symm
        subst hkq
        exact ⟨List.mem_map_of_mem Prod.fst hmem, by simpa using hq, rfl⟩
  · intro hall
    rw [checkStateDictKeys]
    have : es.find? (fun p => decide (pyTypeName p.1 ≠ "str")) = none := by
      rw [List.find?_eq_none]
      intro p hp
      simpa using hall p hp
    rw [this]
  · intro v hv
    cases v with
    | dict es => exact absurd rfl (hv es)
    | leaf w => rfl
    | list xs => rfl
    | tuple xs => rfl
    | namedtuple n fs => rfl
    | partialApp f a k => rfl
  · intro γ reg target conv hconv
    rw [to_state_dict_with, hconv]

/-! ## C3: key-collision on encode -/

/-- A list's dedup has the same length iff the list has no duplicates. -/
theorem dedup_length_eq_iff {α : Type} [DecidableEq α] (l : List α) :
    l.dedup.length = l.length ↔ l.Nodup := by
  constructor
  · intro h
    have hsub := List.dedup_sublist l
    have := hsub.eq_of_length h
    rw [← this]
    exact List.nodup_dedup l
  · intro h
    rw [List.dedup_eq_self.mpr h]

/-- The entries produced by `dict_items`: each key is replaced by its string
form and each value by its encoding. -/
theorem dict_items_ok :
    ∀ (xs entries : List (PyKey × PyVal)), dict_items xs = .ok entries →
      List.Forall₂ (fun (p q : PyKey × PyVal) =>
        q.1 = PyKey.s (pyStr p.1) ∧ to_state_dict p.2 = .ok q.2) xs entries := by
  intro xs
  induction xs with
  | nil =>
      intro entries h
      rw [dict_items] at h
      injection h with h
      rw [← h]
      exact List.Forall₂.nil
  | cons p rest ih =>
      intro entries h
      obtain ⟨k, v⟩ := p
      rw [dict_items] at h
      cases henc : to_state_dict v with
      | error e => rw [henc] at h; exact absurd h (by simp)
      | ok w =>
          rw [henc] at h
          cases hrest : dict_items rest with
          | error e => rw [hrest] at h; exact absurd h (by simp)
          | ok tail =>
              rw [hrest] at h
              injection h with h
              rw [← h]
              exact List.Forall₂.cons ⟨rfl, henc⟩ (ih tail hrest)

/-- Values that are all leaves always encode successfully entrywise. -/
theorem dict_items_flat (xs : List (PyKey × PyVal))
    (hflat : ∀ p ∈ xs, ∃ w, p.2 = .leaf w) :
    ∃ entries, dict_items xs = .ok entries := by
  induction xs with
  | nil => exact ⟨[], by rw [dict_items]⟩
  | cons p rest ih =>
      obtain ⟨k, v⟩ := p
      obtain ⟨w, hw⟩ := hflat (k, v) (by simp)
      simp only at hw
      subst hw
      obtain ⟨tail, htail⟩ := ih (fun q hq => hflat q (by simp [hq]))
      refine ⟨(.s (pyStr k), .leaf w) :: tail, ?_⟩
      rw [dict_items, to_state_dict, htail]

/-- C3: encoding a mapping whose keys are distinct (as in any Python dict):
if two distinct keys have the same string form, the key-collision error is
raised (the mapping is never returned, so nothing is silently overwritten);
if all string forms are distinct, the result is the mapping with each key
replaced by `str(key)` and each value encoded recursively (errors of the
recursive encodes propagate unchanged).  For mappings of leaves, where no
nested encode can itself collide, the error is raised if and only if two
distinct keys share a string form. -/
theorem c3_dict_key_collision (xs : List (PyKey × PyVal))
    (hkeys : (xs.map Prod.fst).Nodup) :
    ((∃ k1 ∈ xs.map Prod.fst, ∃ k2 ∈ xs.map Prod.fst, k1 ≠ k2 ∧ pyStr k1 = pyStr k2) →
      _dict_state_dict xs = .error (.keyCollision (xs.map (fun p => pyStr p.1)).dedup)) ∧
    ((¬ ∃ k1 ∈ xs.map Prod.fst, ∃ k2 ∈ xs.map Prod.fst, k1 ≠ k2 ∧ pyStr k1 = pyStr k2) →
      (∀ entries, dict_items xs = .ok entries →
        _dict_state_dict xs = .ok (.dict entries) ∧
        List.Forall₂ (fun (p q : PyKey × PyVal) =>
          q.1 = PyKey.s (pyStr p.1) ∧ to_state_dict p.2 = .ok q.2) xs entries) ∧
      (∀ e, dict_items xs = .error e → _dict_state_dict xs = .error e)) ∧
    ((∀ p ∈ xs, ∃ w, p.2 = .leaf w) →
      ((∃ k1 ∈ xs.map Prod.fst, ∃ k2 ∈ xs.map Prod.fst, k1 ≠ k2 ∧ pyStr k1 = pyStr k2) ↔
        ∃ strs, _dict_state_dict xs = .error (.keyCollision strs))) := by
  have hmapmap : xs.map (fun p => pyStr p.1) = (xs.map Prod.fst).map pyStr := by
    rw [List.map_map]
    rfl
  have hcoll : (∃ k1 ∈ xs.map Prod.fst, ∃ k2 ∈ xs.map Prod.fst,
      k1 ≠ k2 ∧ pyStr k1 = pyStr k2) ↔ ¬ (xs.map (fun p => pyStr p.1)).Nodup := by
    rw [hmapmap, List.nodup_map_iff_inj_on hkeys]
    push_neg
    constructor
    · intro ⟨k1, h1, k2, h2, hne, heq⟩
      exact ⟨k1, h1, k2, h2, heq, hne⟩
    · intro ⟨k1, h1, k2, h2, heq, hne⟩
      exact ⟨k1, h1, k2, h2, hne, heq⟩
  have herr : (¬ (xs.map (fun p => pyStr p.1)).Nodup) →
      _dict_state_dict xs = .error (.keyCollision (xs.map (fun p => pyStr p.1)).dedup) := by
    intro hnodup
    rw [_dict_state_dict]
    have hne2 : ((xs.map (fun p => pyStr p.1)).dedup).length ≠
        (xs.map (fun p => pyStr p.1)).length := by
      intro hlen
      exact hnodup ((dedup_length_eq_iff _).mp hlen)
    simp only [List.length_map] at hne2 ⊢
    rw [if_pos hne2]
  refine ⟨fun h => herr (hcoll.mp h), ?_, ?_⟩
  · intro hno
    rw [hcoll] at hno
    push_neg at hno
    have hlen : ((xs.map (fun p => pyStr p.1)).dedup).length =
        (xs.map (fun p => pyStr p.1)).length := (dedup_length_eq_iff _).mpr hno
    simp only [List.length_map] at hlen
    constructor
    · intro entries hentries
      constructor
      · rw [_dict_state_dict]
        rw [if_neg (by omega), hentries]
      · exact dict_items_ok xs entries hentries
    · intro e he
      rw [_dict_state_dict]
      rw [if_neg (by omega), he]
  · intro hflat
    constructor
    · intro h
      exact ⟨_, herr (hcoll.mp h)⟩
    · intro ⟨strs, hstrs⟩
      by_contra hno
      rw [hcoll] at hno
      push_neg at hno
      have hlen : ((xs.map (fun p => pyStr p.1)).dedup).length =
          (xs.map (fun p => pyStr p.1)).length := (dedup_length_eq_iff _).mpr hno
      simp only [List.length_map] at hlen
      rw [_dict_state_dict] at hstrs
      rw [if_neg (by omega)] at hstrs
      obtain ⟨entries, hentries⟩ := dict_items_flat xs hflat
      rw [hentries] at hstrs
      exact absurd hstrs (by simp)

/-- C3 witness: the spec's example `{1: "a", "1": "b"}` collides (the two
distinct keys both stringify to `"1"`), and the singleton `{1: "a"}` does
not and encodes to `{"1": "a"}`. -/
theorem c3_dict_key_collision_witness :
    (∃ strs, _dict_state_dict [(.i 1, .leaf (.s "a")), (.s "1", .leaf (.s "b"))] =
      .error (.keyCollision strs)) ∧
    _dict_state_dict [(.i 1, .leaf (.s "a"))] = .ok (.dict [(.s "1", .leaf (.s "a"))]) := by
  constructor
  · exact ((c3_dict_key_collision [(.i 1, .leaf (.s "a")), (.s "1", .leaf (.s "b"))]
      (by simp)).2.2 (by intro p hp; simp at hp; rcases hp with h | h <;> simp [h])).mp
      ⟨.i 1, by simp, .s "1", by simp, by simp, by simp [pyStr, pyIntStr]; decide⟩
  · refine ((c3_dict_key_collision [(.i 1, .leaf (.s "a"))] (by simp)).2.1
      (by rintro ⟨k1, h1, k2, h2, hne, heq⟩; simp at h1 h2; rw [h1, h2] at hne; simp at hne)).1
      [(.s "1", .leaf (.s "a"))] ?_ |>.1
    have hkey : pyStr (PyKey.i 1) = "1" := by decide
    rw [dict_items, to_state_dict, dict_items, hkey]

/-! ## C6: registration and override -/

/-- After a dict assignment, the subscript read returns the stored value. -/
theorem registryLookup_registrySet {α : Type} (reg : List (TypeTag × α)) (ty : TypeTag)
    (v : α) : registryLookup (registrySet reg ty v) ty = some v := by
  induction reg with
  | nil => simp [registrySet, registryLookup, List.find?]
  | cons p rest ih =>
      obtain ⟨k, w⟩ := p
      rw [registrySet]
      by_cases hk : k = ty
      · rw [if_pos hk]
        simp [registryLookup, List.find?]
      · rw [if_neg hk]
        simpa [registryLookup, List.find?, hk] using ih

/-- C6: `register_serialization_state` raises the duplicate-registration
error exactly when the tag is already present and `override` is false; on
success the registry maps the tag to the new converter pair; with
`override = true` it always succeeds and a subsequent encode of any value
with that tag runs the newly registered encode function (followed by the
string-key check). -/
theorem c6_register_override (reg : List (TypeTag × (EncodeFn × DecodeFn))) (ty : TypeTag)
    (enc : EncodeFn) (dec : DecodeFn) (override : Bool) :
    (register_serialization_state reg ty enc dec override =
        .error (.duplicateRegistration ty.tyName) ↔
      registryContains reg ty = true ∧ override = false) ∧
    (∀ reg2, register_serialization_state reg ty enc dec override = .ok reg2 →
      registryLookup reg2 ty = some (enc, dec)) ∧
    (override = true → ∃ reg2,
      register_serialization_state reg ty enc dec override = .ok reg2 ∧
      ∀ target : PyVal, tagOf target = ty →
        to_state_dict_with reg2 target =
          match enc target with
          | .error e => .error e
          | .ok sd => checkStateDictKeys sd) := by
  refine ⟨?_, ?_, ?_⟩
  · rw [register_serialization_state]
    by_cases hcond : (registryContains reg ty && !override) = true
    · rw [if_pos hcond]
      simp only [Bool.and_eq_true, Bool.not_eq_true'] at hcond
      simp [hcond]
    · rw [if_neg hcond]
      simp only [Bool.and_eq_true, Bool.not_eq_true'] at hcond
      constructor
      · intro h
        exact absurd h (by simp)
      · intro ⟨h1, h2⟩
        exact absurd ⟨h1, h2⟩ hcond
  · intro reg2 h
    rw [register_serialization_state] at h
    by_cases hcond : (registryContains reg ty && !override) = true
    · rw [if_pos hcond] at h
      exact absurd h (by simp)
    · rw [if_neg hcond] at h
      injection h with h
      rw [← h]
      exact registryLookup_registrySet reg ty (enc, dec)
  · intro hov
    subst hov
    refine ⟨registrySet reg ty (enc, dec), ?_, ?_⟩
    · rw [register_serialization_state]
      simp
    · intro target htag
      rw [to_state_dict_with, htag, registryLookup_registrySet]

/-- C6 witness: registering a converter for the (unregistered) `int` tag on
the built-in registry succeeds; a second registration without override
raises the duplicate-registration error; with override it succeeds and a
subsequent encode of an int leaf uses the second converter. -/
theorem c6_register_override_witness :
    ∃ reg2, register_serialization_state builtinRegistry (.otherTag "int")
        (fun _ => .ok (.leaf (.i 1))) (fun _ s _ => .ok s) false = .ok reg2 ∧
      register_serialization_state reg2 (.otherTag "int")
        (fun _ => .ok (.leaf (.i 2))) (fun _ s _ => .ok s) false =
        .error (.duplicateRegistration "int") ∧
      ∃ reg3, register_serialization_state reg2 (.otherTag "int")
          (fun _ => .ok (.leaf (.i 2))) (fun _ s _ => .ok s) true = .ok reg3 ∧
        to_state_dict_with reg3 (.leaf (.i 7)) = .ok (.leaf (.i 2)) := by
  have h1 : register_serialization_state builtinRegistry (.otherTag "int")
      (fun _ => .ok (.leaf (.i 1))) (fun _ s _ => .ok s) false =
      .ok (builtinRegistry ++ [(.otherTag "int",
        (fun _ => .ok (.leaf (.i 1)), fun _ s _ => .ok s))]) := by
    rw [register_serialization_state]
    rw [if_neg (by simp [registryContains, builtinRegistry])]
    simp [builtinRegistry, registrySet]
  refine ⟨_, h1, ?_, ?_⟩
  · have hc := (c6_register_override (builtinRegistry ++ [(.otherTag "int",
      (fun _ => .ok (.leaf (.i 1)), fun _ s _ => .ok s))]) (.otherTag "int")
      (fun _ => .ok (.leaf (.i 2))) (fun _ s _ => .ok s) false).1
    exact hc.mpr ⟨by simp [registryContains, builtinRegistry], rfl⟩
  · obtain ⟨reg3, hreg3, henc⟩ := (c6_register_override (builtinRegistry ++ [(.otherTag "int",
      (fun _ => .ok (.leaf (.i 1)), fun _ s _ => .ok s))]) (.otherTag "int")
      (fun _ => .ok (.leaf (.i 2))) (fun _ s _ => .ok s) true).2.2 rfl
    refine ⟨reg3, hreg3, ?_⟩
    rw [henc (.leaf (.i 7)) rfl]
    rfl

/-! ## C4: missing keys on mapping decode -/

/-- A dict subscript succeeds exactly when some entry has the key. -/
theorem dictGet_isSome_iff (sd : List (PyKey × PyVal)) (k : PyKey) :
    (dictGet sd k).isSome ↔ ∃ q ∈ sd, q.1 = k := by
  rw [dictGet]
  cases hfind : sd.find? (fun p => decide (p.1 = k)) with
  | none =>
      rw [List.find?_eq_none] at hfind
      simp only [Option.isSome_none, Bool.false_eq_true, false_iff]
      intro ⟨q, hq, hk⟩
      exact absurd (by simpa using hk) (hfind q hq)
  | some q =>
      simp only [Option.isSome_some, true_iff]
      exact ⟨q, List.mem_of_find?_eq_some hfind, by simpa using List.find?_some hfind⟩

/-- If every target key's string form is present in the state and every
target value is a leaf, the restore loop of `_restore_dict` succeeds and
returns entries under exactly the target's original keys. -/
theorem restore_dict_items_leaves (sd : List (PyKey × PyVal)) (path : List String) :
    ∀ xs : List (PyKey × PyVal),
      (∀ p ∈ xs, ∃ w, p.2 = .leaf w) →
      (∀ p ∈ xs, ∃ q ∈ sd, q.1 = PyKey.s (pyStr p.1)) →
      ∃ entries, restore_dict_items sd path xs = .ok entries ∧
        entries.map Prod.fst = xs.map Prod.fst := by
  intro xs
  induction xs with
  | nil => exact fun _ _ => ⟨[], by rw [restore_dict_items], rfl⟩
  | cons p rest ih =>
      intro hflat hpresent
      obtain ⟨k, v⟩ := p
      obtain ⟨w, hw⟩ := hflat (k, v) (by simp)
      simp only at hw
      subst hw
      have hsome : (dictGet sd (.s (pyStr k))).isSome := by
        rw [dictGet_isSome_iff]
        exact hpresent (k, .leaf w) (by simp)
      obtain ⟨sv, hsv⟩ := Option.isSome_iff_exists.mp hsome
      obtain ⟨tail, htail, hkeys⟩ := ih (fun q hq => hflat q (by simp [hq]))
        (fun q hq => hpresent q (by simp [hq]))
      refine ⟨(k, sv) :: tail, ?_, ?_⟩
      · rw [restore_dict_items, hsv]
        simp only [from_state_dict]
        rw [htail]
      · simp [hkeys]

/-- C4: decoding a mapping target against a state dict: the missing-key
error is raised exactly when the `missing` set is nonempty, where a string
belongs to `missing` iff it is the string form of some target key and no
state key equals it — so the error lists every missing target key, not just
the first; when nothing is missing (and, to rule nested failures out, the
values are leaves) the decode succeeds. -/
theorem c4_restore_dict_missing_keys (xs sd : List (PyKey × PyVal)) (path : List String) :
    ∃ missing : List String,
      (∀ s, s ∈ missing ↔
        ((∃ k ∈ xs.map Prod.fst, pyStr k = s) ∧ ∀ q ∈ sd, q.1 ≠ PyKey.s s)) ∧
      (missing ≠ [] →
        _restore_dict xs (.dict sd) path =
          .error (.missingKeys missing (current_path path))) ∧
      (missing = [] → (∀ p ∈ xs, ∃ w, p.2 = .leaf w) →
        ∃ entries, _restore_dict xs (.dict sd) path = .ok (.dict entries) ∧
          entries.map Prod.fst = xs.map Prod.fst) := by
  refine ⟨((xs.map (fun p => pyStr p.1)).dedup).filter
    (fun s => !(sd.any (fun q => decide (q.1 = PyKey.s s)))), ?_, ?_, ?_⟩
  · intro s
    rw [List.mem_filter, List.mem_dedup]
    constructor
    · intro ⟨hmem, hpred⟩
      refine ⟨?_, ?_⟩
      · rcases List.mem_map.mp hmem with ⟨p, hp, hps⟩
        exact ⟨p.1, List.mem_map_of_mem Prod.fst hp, hps⟩
      · intro q hq
        simp only [Bool.not_eq_true', List.any_eq_false, decide_eq_true_eq] at hpred
        exact hpred q hq
    · intro ⟨⟨k, hk, hks⟩, habsent⟩
      refine ⟨?_, ?_⟩
      · rcases List.mem_map.mp hk with ⟨p, hp, hpk⟩
        exact List.mem_map.mpr ⟨p, hp, by rw [hpk, hks]⟩
      · simp only [Bool.not_eq_true', List.any_eq_false, decide_eq_true_eq]
        exact habsent
  · intro hne
    rw [_restore_dict]
    rw [if_pos hne]
  · intro hempty hflat
    rw [_restore_dict]
    rw [if_neg (by rw [hempty]; simp)]
    have hpresent : ∀ p ∈ xs, ∃ q ∈ sd, q.1 = PyKey.s (pyStr p.1) := by
      intro p hp
      by_contra habs
      push_neg at habs
      have : pyStr p.1 ∈ ((xs.map (fun p => pyStr p.1)).dedup).filter
          (fun s => !(sd.any (fun q => decide (q.1 = PyKey.s s)))) := by
        rw [List.mem_filter, List.mem_dedup]
        refine ⟨List.mem_map_of_mem _ hp, ?_⟩
        simp only [Bool.not_eq_true', List.any_eq_false, decide_eq_true_eq]
        exact habs
      rw [hempty] at this
      exact absurd this (by simp)
    obtain ⟨entries, hentries, hkeys⟩ := restore_dict_items_leaves sd path xs hflat hpresent
    exact ⟨entries, by rw [hentries], hkeys⟩

/-- C4 witness: the spec's example, target `{"a": 1, "b": 2}` decoded
against state `{"a": 1}`, fails with a missing-key error listing `"b"`. -/
theorem c4_restore_dict_missing_keys_witness :
    ∃ missing, _restore_dict [(.s "a", .leaf (.i 1)), (.s "b", .leaf (.i 2))]
        (.dict [(.s "a", .leaf (.i 1))]) ["."] =
      .error (.missingKeys missing (current_path ["."])) ∧ "b" ∈ missing := by
  obtain ⟨missing, hchar, herr, _⟩ := c4_restore_dict_missing_keys
    [(.s "a", .leaf (.i 1)), (.s "b", .leaf (.i 2))] [(.s "a", .leaf (.i 1))] ["."]
  have hb : "b" ∈ missing := by
    rw [hchar]
    refine ⟨⟨.s "b", by simp, rfl⟩, ?_⟩
    intro q hq
    simp at hq
    rw [hq]
    simp
  exact ⟨missing, herr (by intro h; rw [h] at hb; exact absurd hb (by simp)), hb⟩

/-! ## C5: field mismatch on record decode -/

/-- C5: decoding a namedtuple-like target fails with the field-mismatch
error whenever the state's key set differs from the field-name set in
either direction (a surplus state key or a missing field), and the error
carries both key sets, so every mismatching name appears in it. -/
theorem c5_restore_namedtuple_field_mismatch (tyName : String)
    (fs : List (String × PyVal)) (sd : List (PyKey × PyVal)) (path : List String)
    (hmis : ¬ ∀ k, k ∈ sd.map (fun p => p.1) ↔ k ∈ fs.map (fun p => PyKey.s p.1)) :
    _restore_namedtuple tyName fs (.dict sd) path =
      .error (.fieldMismatch (sd.map (fun p => p.1)) (fs.map (fun p => p.1))
        (current_path path)) ∧
    (∀ k, k ∈ sd.map (fun p => p.1) ∧ k ∉ fs.map (fun p => PyKey.s p.1) →
      k ∈ sd.map (fun p => p.1)) ∧
    (∀ n, n ∈ fs.map (fun p => p.1) ∧ PyKey.s n ∉ sd.map (fun p => p.1) →
      n ∈ fs.map (fun p => p.1)) := by
  refine ⟨?_, fun k h => h.1, fun n h => h.1⟩
  rw [_restore_namedtuple]
  have hfalse : ((sd.map (fun p => p.1)).all
        (fun k => decide (k ∈ fs.map (fun p => PyKey.s p.1))) &&
      (fs.map (fun p => PyKey.s p.1)).all
        (fun k => decide (k ∈ sd.map (fun p => p.1)))) = false := by
    by_contra hcon
    rw [Bool.not_eq_false, Bool.and_eq_true, List.all_eq_true, List.all_eq_true] at hcon
    apply hmis
    intro k
    constructor
    · intro hk
      simpa using hcon.1 k hk
    · intro hk
      simpa using hcon.2 k hk
  rw [if_pos (by rw [hfalse]; rfl)]

/-- C5 witness: fields `{x, y}` against state keys `{x, y, z}` fail (surplus
`z`), and against state keys `{x}` fail (missing `y`); both errors record
the state keys and the field names. -/
theorem c5_restore_namedtuple_field_mismatch_witness :
    _restore_namedtuple "P" [("x", .leaf (.i 1)), ("y", .leaf (.i 2))]
      (.dict [(.s "x", .leaf (.i 1)), (.s "y", .leaf (.i 2)), (.s "z", .leaf (.i 3))]) ["."] =
      .error (.fieldMismatch [.s "x", .s "y", .s "z"] ["x", "y"] (current_path ["."])) ∧
    _restore_namedtuple "P" [("x", .leaf (.i 1)), ("y", .leaf (.i 2))]
      (.dict [(.s "x", .leaf (.i 1))]) ["."] =
      .error (.fieldMismatch [.s "x"] ["x", "y"] (current_path ["."])) := by
  constructor
  · exact (c5_restore_namedtuple_field_mismatch "P" [("x", .leaf (.i 1)), ("y", .leaf (.i 2))]
      [(.s "x", .leaf (.i 1)), (.s "y", .leaf (.i 2)), (.s "z", .leaf (.i 3))] ["."]
      (by intro h; have := (h (.s "z")).mp (by simp); simp at this)).1
  · exact (c5_restore_namedtuple_field_mismatch "P" [("x", .leaf (.i 1)), ("y", .leaf (.i 2))]
      [(.s "x", .leaf (.i 1))] ["."]
      (by intro h; have := (h (.s "y")).mpr (by simp); simp at this)).1

/-! ## C9: the path in error messages -/

/-- An infix of a list is an infix of any extension on the left. -/
theorem isInfix_append_left {α : Type} {l c : List α} (x : List α) (h : l <:+: c) :
    l <:+: x ++ c := by
  obtain ⟨s, t, hst⟩ := h
  exact ⟨x ++ s, t, by rw [← hst]; simp⟩

/-- Decoding a singleton dict target `{k: v}` against a singleton state
`{k: sv}`: the key check passes and the entry decodes with name `k`. -/
theorem restore_dict_singleton (k : String) (v sv : PyVal) (path : List String) :
    _restore_dict [(.s k, v)] (.dict [(.s k, sv)]) path =
      match from_state_dict v sv k path with
      | .error e => .error e
      | .ok y => .ok (.dict [(.s k, y)]) := by
  rw [_restore_dict]
  rw [if_neg (by simp [pyStr, dictGet, List.find?])]
  rw [restore_dict_items]
  simp only [show dictGet [(PyKey.s k, sv)] (.s (pyStr (.s k))) = some sv from by
    simp [dictGet, pyStr, List.find?], pyStr]
  cases hv : from_state_dict v sv k path with
  | error e =>
      simp [hv, show dictGet [(PyKey.s k, sv)] (PyKey.s k) = some sv from by
        simp [dictGet, List.find?]]
  | ok y =>
      simp [hv, restore_dict_items, show dictGet [(PyKey.s k, sv)] (PyKey.s k) = some sv from by
        simp [dictGet, List.find?]]

/-- C9: decoding the nested shape `{"outer": {"inner": [...]}}` when the
innermost sequence has a length mismatch produces the length-mismatch error
whose recorded path is the `/`-joined stack at the moment of failure,
`./outer/inner` (the top-level call pushes the default name `"."`), and
whose rendered message contains `outer/inner`. -/
theorem c9_nested_error_path (xs : List PyVal) (sd : List (PyKey × PyVal))
    (hlen : sd.length ≠ xs.length) :
    ∃ e, from_state_dict (.dict [(.s "outer", .dict [(.s "inner", .list xs)])])
        (.dict [(.s "outer", .dict [(.s "inner", .dict sd)])]) "." [] = .error e ∧
      e = .lengthMismatch xs.length sd.length "./outer/inner" ∧
      "outer/inner".data <:+: (SerError.message e).data := by
  refine ⟨.lengthMismatch xs.length sd.length "./outer/inner", ?_, rfl, ?_⟩
  · have hpath : current_path [".", "outer", "inner"] = "./outer/inner" := by decide
    have hinner : from_state_dict (.list xs) (.dict sd) "inner" [".", "outer"] =
        .error (.lengthMismatch xs.length sd.length "./outer/inner") := by
      simp only [from_state_dict]
      rw [_restore_list, if_pos hlen]
      rw [show ([".", "outer"] ++ ["inner"]) = [".", "outer", "inner"] from rfl, hpath]
    simp only [from_state_dict]
    rw [show (([] : List String) ++ ["."]) = ["."] from rfl]
    rw [restore_dict_singleton "outer" (.dict [(.s "inner", .list xs)])
      (.dict [(.s "inner", .dict sd)]) ["."]]
    simp only [from_state_dict]
    rw [show ((["."] : List String) ++ ["outer"]) = [".", "outer"] from rfl]
    rw [restore_dict_singleton "inner" (.list xs) (.dict sd) [".", "outer"]]
    rw [hinner]
  · have hsuffix : "./outer/inner".data <:+ (SerError.message
        (.lengthMismatch xs.length sd.length "./outer/inner")).data := by
      rw [SerError.message]
      rw [show ("The size of the list and the state dict do not match, got " ++
          pyNatStr xs.length ++ " and " ++ pyNatStr sd.length ++ " at path " ++
          "./outer/inner").data =
        ("The size of the list and the state dict do not match, got " ++
          pyNatStr xs.length ++ " and " ++ pyNatStr sd.length ++ " at path ").data ++
          "./outer/inner".data from by simp [String.data_append]]
      exact List.suffix_append _ _
    have hinf : "outer/inner".data <:+: "./outer/inner".data := by decide
    obtain ⟨pre, hpre⟩ := hsuffix
    rw [← hpre]
    exact isInfix_append_left pre hinf

/-- C9 witness: the spec's example, a 3-element inner list against a
2-entry inner state. -/
theorem c9_nested_error_path_witness :
    ∃ e, from_state_dict
        (.dict [(.s "outer", .dict [(.s "inner",
          .list [.leaf (.i 1), .leaf (.i 2), .leaf (.i 3)])])])
        (.dict [(.s "outer", .dict [(.s "inner",
          .dict [(.s "0", .leaf (.i 1)), (.s "1", .leaf (.i 2))])])]) "." [] = .error e ∧
      e = .lengthMismatch 3 2 "./outer/inner" ∧
      "outer/inner".data <:+: (SerError.message e).data := by
  exact c9_nested_error_path [.leaf (.i 1), .leaf (.i 2), .leaf (.i 3)]
    [(.s "0", .leaf (.i 1)), (.s "1", .leaf (.i 2))] (by simp)

/-! ## C10: surplus state keys on mapping decode -/

/-- C10 counterexample: the claim as stated quantifies over every dict
target and every state whose key set is a strict superset of the target's
stringified keys and asserts the decode succeeds; it fails when the value
under a matched key cannot be decoded — here the target value is a list
but the state supplies a leaf, so the decode raises a `TypeError` even
though the state keys `{"a","b"}` strictly contain the target keys
`{"a"}`. -/
theorem c10_superset_counterexample :
    from_state_dict (.dict [(.s "a", .list [.leaf (.i 1)])])
        (.dict [(.s "a", .leaf (.i 0)), (.s "b", .leaf (.i 0))]) "." [] =
      .error (.typeError "object is not a state dict") := by
  simp only [from_state_dict]
  rw [_restore_dict]
  rw [if_neg (by simp [pyStr, dictGet, List.find?])]
  rw [restore_dict_items]
  rw [show dictGet [(PyKey.s "a", PyVal.leaf (PyKey.i 0)), (PyKey.s "b", PyVal.leaf (PyKey.i 0))]
      (.s (pyStr (PyKey.s "a"))) = some (.leaf (.i 0)) from rfl]
  simp only [from_state_dict]
  simp [_restore_list]

/-- C10 amended: decoding a dict target ignores surplus state entries — the
presence of extra state keys never raises an error (asymmetric with record
decode, which rejects supersets): whenever every target key's string form
is present in the state (in particular for any superset, strict or not)
the top-level check passes, and if the per-key decodes succeed (guaranteed
here for leaf values) the result's key set equals the target's original
key set. -/
theorem c10_amended_superset_ignored (xs sd : List (PyKey × PyVal)) (path : List String)
    (hsup : ∀ k ∈ xs.map Prod.fst, ∃ q ∈ sd, q.1 = PyKey.s (pyStr k))
    (hflat : ∀ p ∈ xs, ∃ w, p.2 = .leaf w) :
    ∃ entries, _restore_dict xs (.dict sd) path = .ok (.dict entries) ∧
      entries.map Prod.fst = xs.map Prod.fst := by
  rw [_restore_dict]
  have hdiff : (((xs.map (fun p => pyStr p.1)).dedup).filter
      (fun s => !(sd.any (fun q => decide (q.1 = PyKey.s s))))) = [] := by
    rw [List.filter_eq_nil_iff]
    intro s hs
    rw [List.mem_dedup] at hs
    obtain ⟨p, hp, hps⟩ := List.mem_map.mp hs
    obtain ⟨q, hq, hqk⟩ := hsup p.1 (List.mem_map_of_mem Prod.fst hp)
    simp only [Bool.not_eq_true', Bool.not_eq_false, List.any_eq_true, decide_eq_true_eq]
    exact ⟨q, hq, by rw [hqk, hps]⟩
  rw [if_neg (by rw [hdiff]; simp)]
  obtain ⟨entries, hentries, hkeys⟩ := restore_dict_items_leaves sd path xs hflat
    (fun p hp => hsup p.1 (List.mem_map_of_mem Prod.fst hp))
  exact ⟨entries, by rw [hentries], hkeys⟩

/-- C10 amended witness: target `{"a": 1}` against the strict-superset
state `{"a": 1, "b": 2}` decodes successfully with key set `{"a"}`. -/
theorem c10_amended_superset_ignored_witness :
    ∃ entries, _restore_dict [(.s "a", .leaf (.i 1))]
        (.dict [(.s "a", .leaf (.i 1)), (.s "b", .leaf (.i 2))]) ["."] =
      .ok (.dict entries) ∧ entries.map Prod.fst = [PyKey.s "a"] := by
  obtain ⟨entries, hok, hkeys⟩ := c10_amended_superset_ignored
    [(.s "a", .leaf (.i 1))] [(.s "a", .leaf (.i 1)), (.s "b", .leaf (.i 2))] ["."]
    (by intro k hk; simp at hk; subst hk; exact ⟨(.s "a", .leaf (.i 1)), by simp, rfl⟩)
    (by intro p hp; simp at hp; rw [hp]; exact ⟨.i 1, rfl⟩)
  exact ⟨entries, hok, by simpa using hkeys⟩

/-! ## C8: partial-application decode keeps the target's function -/

/-- C8: a successful decode of a partial-application target always returns
a new partial application bound to the target's own function reference —
the function is never taken from the state — with the positional and
keyword arguments decoded recursively from the state's `"args"` and
`"keywords"` entries against the target's `args`/`keywords`; consequently a
second target with the same `args`/`keywords` but a different function
decodes the same state to a partial application with its own function. -/
theorem c8_partial_decode_keeps_func (func func2 : Nat) (args kws state : PyVal)
    (name : String) (path : List String) (r : PyVal)
    (h : from_state_dict (.partialApp func args kws) state name path = .ok r) :
    ∃ sd sdArgs sdKws decodedArgs decodedKws argList kwList,
      state = .dict sd ∧
      dictGet sd (.s "args") = some sdArgs ∧
      dictGet sd (.s "keywords") = some sdKws ∧
      from_state_dict args sdArgs "." (path ++ [name]) = .ok decodedArgs ∧
      from_state_dict kws sdKws "." (path ++ [name]) = .ok decodedKws ∧
      splatArgs decodedArgs = .ok argList ∧
      splatKeywords decodedKws = .ok kwList ∧
      r = .partialApp func (.tuple argList) (.dict kwList) ∧
      from_state_dict (.partialApp func2 args kws) state name path =
        .ok (.partialApp func2 (.tuple argList) (.dict kwList)) := by
  simp only [from_state_dict] at h ⊢
  cases state with
  | dict sd =>
      rw [_restore_partial_app] at h
      cases hargs : dictGet sd (.s "args") with
      | none => simp only [hargs] at h; exact absurd h (by simp)
      | some sdArgs =>
          simp only [hargs] at h
          cases hda : from_state_dict args sdArgs "." (path ++ [name]) with
          | error e => simp only [hda] at h; exact absurd h (by simp)
          | ok decodedArgs =>
              simp only [hda] at h
              cases hsa : splatArgs decodedArgs with
              | error e => simp only [hsa] at h; exact absurd h (by simp)
              | ok argList =>
                  simp only [hsa] at h
                  cases hkws : dictGet sd (.s "keywords") with
                  | none => simp only [hkws] at h; exact absurd h (by simp)
                  | some sdKws =>
                      simp only [hkws] at h
                      cases hdk : from_state_dict kws sdKws "." (path ++ [name]) with
                      | error e => simp only [hdk] at h; exact absurd h (by simp)
                      | ok decodedKws =>
                          simp only [hdk] at h
                          cases hsk : splatKeywords decodedKws with
                          | error e => simp only [hsk] at h; exact absurd h (by simp)
                          | ok kwList =>
                              simp only [hsk] at h
                              injection h with h
                              refine ⟨sd, sdArgs, sdKws, decodedArgs, decodedKws,
                                argList, kwList, rfl, hargs, hkws, hda, hdk, hsa, hsk,
                                h.symm, ?_⟩
                              rw [_restore_partial_app]
                              simp only [hargs, hda, hsa, hkws, hdk, hsk]
  | leaf v => simp [_restore_partial_app] at h
  | list ys => simp [_restore_partial_app] at h
  | tuple ys => simp [_restore_partial_app] at h
  | namedtuple n fs => simp [_restore_partial_app] at h
  | partialApp f a k => simp [_restore_partial_app] at h

/-- C8 witness: the state `{"args": {}, "keywords": {}}` decodes the target
`Partial(f1)` to `Partial(f1)` and the target `Partial(f2)` (same args and
keywords) to `Partial(f2)`: the function comes from each target. -/
theorem c8_partial_decode_keeps_func_witness :
    from_state_dict (.partialApp 1 (.tuple []) (.dict []))
      (.dict [(.s "args", .dict []), (.s "keywords", .dict [])]) "." [] =
      .ok (.partialApp 1 (.tuple []) (.dict [])) ∧
    from_state_dict (.partialApp 2 (.tuple []) (.dict []))
      (.dict [(.s "args", .dict []), (.s "keywords", .dict [])]) "." [] =
      .ok (.partialApp 2 (.tuple []) (.dict [])) := by
  have h1 : from_state_dict (.partialApp 1 (.tuple []) (.dict []))
      (.dict [(.s "args", .dict []), (.s "keywords", .dict [])]) "." [] =
      .ok (.partialApp 1 (.tuple []) (.dict [])) := by
    simp +decide [from_state_dict, _restore_partial_app, _restore_list, restore_list_items,
      _restore_dict, restore_dict_items, dictGet, splatArgs, splatKeywords, List.find?]
  obtain ⟨sd, sdArgs, sdKws, dA, dK, aL, kL, _, _, _, _, _, hsa, hsk, hr, h2⟩ :=
    c8_partial_decode_keeps_func 1 2 (.tuple []) (.dict [])
      (.dict [(.s "args", .dict []), (.s "keywords", .dict [])]) "." [] _ h1
  have haL : aL = [] := by
    injection hr with hf ha hk
    injection ha with ha2
    exact ha2.symm
  have hkL : kL = [] := by
    injection hr with hf ha hk
    injection hk with hk2
    exact hk2.symm
  rw [haL, hkL] at h2
  exact ⟨h1, h2⟩

/-! ## C1: round-trip -/

/-- A target round-trips: it encodes successfully and decoding the encoding
(under any name and path) restores a structurally equal value. -/
def RoundTrips (t : PyVal) : Prop :=
  ∃ s, to_state_dict t = .ok s ∧ ∀ name path, from_state_dict t s name path = .ok t

/-- Dict lookup on a cons cell. -/
theorem dictGet_cons (a : PyKey) (b : PyVal) (t : List (PyKey × PyVal)) (k : PyKey) :
    dictGet ((a, b) :: t) k = if a = k then some b else dictGet t k := by
  by_cases h : a = k
  · simp [dictGet, List.find?, h]
  · simp [dictGet, List.find?, h]

/-- The restore loop of `_restore_list` only reads the state dict at the
indices it visits. -/
theorem restore_list_items_congr (path : List String) :
    ∀ (xs : List PyVal) (i : Nat) (sd sd' : List (PyKey × PyVal)),
      (∀ j, j < xs.length →
        dictGet sd (.s (pyNatStr (i + j))) = dictGet sd' (.s (pyNatStr (i + j)))) →
      restore_list_items sd path i xs = restore_list_items sd' path i xs := by
  intro xs
  induction xs with
  | nil => intro i sd sd' _; rw [restore_list_items, restore_list_items]
  | cons x rest ih =>
      intro i sd sd' hagree
      rw [restore_list_items, restore_list_items]
      have h0 := hagree 0 (by simp)
      rw [Nat.add_zero] at h0
      cases hsd : dictGet sd (.s (pyNatStr i)) with
      | none => simp only [hsd, h0.symm.trans hsd]
      | some sv =>
          simp only [hsd, h0.symm.trans hsd]
          cases hfs : from_state_dict x sv (pyNatStr i) path with
          | error e => simp only [hfs]
          | ok y =>
              simp only [hfs]
              rw [ih (i + 1) sd sd' (fun j hj => by
                have := hagree (j + 1) (by simp; omega)
                rw [show i + (j + 1) = i + 1 + j by omega] at this
                exact this)]

/-- Encoding a list from index `i` and restoring it from the produced
entries round-trips, provided each element round-trips. -/
theorem list_roundtrip (xs : List PyVal)
    (hRT : ∀ x ∈ xs, RoundTrips x) :
    ∀ i, ∃ entries, list_items i xs = .ok entries ∧ entries.length = xs.length ∧
      (∀ p ∈ entries, ∃ m, p.1 = PyKey.s (pyNatStr m) ∧ i ≤ m) ∧
      ∀ path, restore_list_items entries path i xs = .ok xs := by
  induction xs with
  | nil =>
      intro i
      exact ⟨[], by rw [list_items], rfl, by simp, fun path => by rw [restore_list_items]⟩
  | cons x rest ih =>
      intro i
      obtain ⟨w, hw, hdec⟩ := hRT x (by simp)
      obtain ⟨tail, htail, hlen, hkeys, hrestore⟩ :=
        ih (fun y hy => hRT y (by simp [hy])) (i + 1)
      refine ⟨(.s (pyNatStr i), w) :: tail, ?_, by simp [hlen], ?_, ?_⟩
      · rw [list_items, hw, htail]
      · intro p hp
        rcases List.mem_cons.mp hp with h | h
        · exact ⟨i, by rw [h], le_refl i⟩
        · obtain ⟨m, hm, him⟩ := hkeys p h
          exact ⟨m, hm, by omega⟩
      · intro path
        rw [restore_list_items]
        simp only [show dictGet ((PyKey.s (pyNatStr i), w) :: tail) (.s (pyNatStr i)) =
          some w from by rw [dictGet_cons, if_pos rfl]]
        simp only [hdec (pyNatStr i) path]
        have htrans : restore_list_items ((PyKey.s (pyNatStr i), w) :: tail) path (i + 1) rest =
            restore_list_items tail path (i + 1) rest := by
          apply restore_list_items_congr
          intro j hj
          rw [dictGet_cons, if_neg]
          intro hcon
          injection hcon with hcon
          have := pyNatStr_injective _ _ hcon
          omega
        rw [htrans]
        simp only [hrestore path]

/-- The restore loop of `_restore_dict` only reads the state dict at the
stringified target keys. -/
theorem restore_dict_items_congr (path : List String) :
    ∀ (xs : List (PyKey × PyVal)) (sd sd' : List (PyKey × PyVal)),
      (∀ p ∈ xs, dictGet sd (.s (pyStr p.1)) = dictGet sd' (.s (pyStr p.1))) →
      restore_dict_items sd path xs = restore_dict_items sd' path xs := by
  intro xs
  induction xs with
  | nil => intro sd sd' _; rw [restore_dict_items, restore_dict_items]
  | cons p rest ih =>
      intro sd sd' hagree
      obtain ⟨k, v⟩ := p
      rw [restore_dict_items, restore_dict_items]
      have h0 := hagree (k, v) (by simp)
      cases hsd : dictGet sd (.s (pyStr k)) with
      | none => simp only [hsd, h0.symm.trans hsd]
      | some sv =>
          simp only [hsd, h0.symm.trans hsd]
          cases hfs : from_state_dict v sv (pyStr k) path with
          | error e => simp only [hfs]
          | ok y =>
              simp only [hfs]
              rw [ih sd sd' (fun q hq => hagree q (by simp [hq]))]

/-- Encoding a dict with distinct key strings and restoring it from the
produced entries round-trips, provided each value round-trips. -/
theorem dict_roundtrip (es : List (PyKey × PyVal))
    (hnd : (es.map (fun p => pyStr p.1)).Nodup)
    (hRT : ∀ p ∈ es, RoundTrips p.2) :
    ∃ entries, dict_items es = .ok entries ∧
      entries.map Prod.fst = es.map (fun p => PyKey.s (pyStr p.1)) ∧
      ∀ path, restore_dict_items entries path es = .ok es := by
  induction es with
  | nil =>
      exact ⟨[], by rw [dict_items], rfl, fun path => by rw [restore_dict_items]⟩
  | cons p rest ih =>
      obtain ⟨k, v⟩ := p
      obtain ⟨w, hw, hdec⟩ := hRT (k, v) (by simp)
      have hnd' : (rest.map (fun p => pyStr p.1)).Nodup := by
        simp only [List.map_cons, List.nodup_cons] at hnd
        exact hnd.2
      have hknotin : pyStr k ∉ rest.map (fun p => pyStr p.1) := by
        simp only [List.map_cons, List.nodup_cons] at hnd
        exact hnd.1
      obtain ⟨tail, htail, hkeys, hrestore⟩ := ih hnd' (fun q hq => hRT q (by simp [hq]))
      refine ⟨(.s (pyStr k), w) :: tail, ?_, by simp [hkeys], ?_⟩
      · rw [dict_items, hw, htail]
      · intro path
        rw [restore_dict_items]
        simp only [show dictGet ((PyKey.s (pyStr k), w) :: tail) (.s (pyStr k)) =
          some w from by rw [dictGet_cons, if_pos rfl]]
        simp only [hdec (pyStr k) path]
        have htrans : restore_dict_items ((PyKey.s (pyStr k), w) :: tail) path rest =
            restore_dict_items tail path rest := by
          apply restore_dict_items_congr
          intro q hq
          rw [dictGet_cons, if_neg]
          intro hcon
          injection hcon with hcon
          exact hknotin (hcon ▸ List.mem_map_of_mem (fun p => pyStr p.1) hq)
        rw [htrans]
        simp only [hrestore path]

/-- `getattr` on a namedtuple with distinct field names finds the declared
value, so the field decode runs on it. -/
theorem decode_field_mem (fs : List (String × PyVal)) (hnd : (fs.map Prod.fst).Nodup)
    (f : String) (v sv : PyVal) (path : List String)
    (hmem : (f, v) ∈ fs) (hdec : from_state_dict v sv f path = .ok v) :
    decode_field fs f sv path = .ok v := by
  induction fs with
  | nil => exact absurd hmem (by simp)
  | cons p rest ih =>
      obtain ⟨g, w⟩ := p
      rw [decode_field]
      by_cases hg : g = f
      · rw [if_pos hg]
        rcases List.mem_cons.mp hmem with h | h
        · injection h with h1 h2
          rw [← h2]
          exact hdec
        · exfalso
          simp only [List.map_cons, List.nodup_cons] at hnd
          exact hnd.1 (hg ▸ List.mem_map.mpr ⟨(f, v), h, rfl⟩)
      · rw [if_neg hg]
        rcases List.mem_cons.mp hmem with h | h
        · injection h with h1 h2
          exact absurd h1.symm hg
        · exact ih (by simp only [List.map_cons, List.nodup_cons] at hnd; exact hnd.2) h

/-- The restore loop of `_restore_namedtuple` over entries that correspond
pairwise to (a sublist of) the fields restores those fields. -/
theorem restore_nt_items_ok (fs : List (String × PyVal)) (hnd : (fs.map Prod.fst).Nodup)
    (path : List String) :
    ∀ (fsub : List (String × PyVal)) (ents : List (PyKey × PyVal)),
      (∀ p ∈ fsub, p ∈ fs) →
      List.Forall₂ (fun (p : String × PyVal) (q : PyKey × PyVal) =>
        q.1 = PyKey.s p.1 ∧ from_state_dict p.2 q.2 p.1 path = .ok p.2) fsub ents →
      restore_nt_items fs path ents = .ok fsub := by
  intro fsub ents hsub hrel
  induction hrel with
  | nil => rw [restore_nt_items]
  | cons hpq hrest ih =>
      rename_i p q fsub2 ents2
      obtain ⟨g, w⟩ := p
      obtain ⟨qk, sv⟩ := q
      obtain ⟨hq1, hq2⟩ := hpq
      simp only at hq1 hq2
      subst hq1
      rw [restore_nt_items]
      rw [decode_field_mem fs hnd g w sv path (hsub (g, w) (by simp)) hq2]
      rw [ih (fun r hr => hsub r (by simp [hr]))]

/-- `lookupStr` on an association list with distinct keys finds the
declared value. -/
theorem lookupStr_nodup (fs : List (String × PyVal)) (hnd : (fs.map Prod.fst).Nodup)
    (f : String) (v : PyVal) (hmem : (f, v) ∈ fs) : lookupStr fs f = some v := by
  induction fs with
  | nil => exact absurd hmem (by simp)
  | cons p rest ih =>
      obtain ⟨g, w⟩ := p
      by_cases hg : g = f
      · rcases List.mem_cons.mp hmem with h | h
        · injection h with h1 h2
          rw [h2]
          simp [lookupStr, List.find?, hg]
        · exfalso
          simp only [List.map_cons, List.nodup_cons] at hnd
          exact hnd.1 (hg ▸ List.mem_map.mpr ⟨(f, v), h, rfl⟩)
      · have : lookupStr ((g, w) :: rest) f = lookupStr rest f := by
          simp [lookupStr, List.find?, hg]
        rw [this]
        rcases List.mem_cons.mp hmem with h | h
        · injection h with h1 h2
          exact absurd h1.symm hg
        · exact ih (by simp only [List.map_cons, List.nodup_cons] at hnd; exact hnd.2) h

/-- `type(xs)(**fields)` rebuilds the declared fields when each is among
the decoded ones. -/
theorem build_nt_fields_of (decoded : List (String × PyVal)) :
    ∀ fsub : List (String × PyVal),
      (∀ p ∈ fsub, lookupStr decoded p.1 = some p.2) →
      build_nt_fields decoded fsub = some fsub := by
  intro fsub
  induction fsub with
  | nil => intro _; rw [build_nt_fields]
  | cons p rest ih =>
      intro hall
      obtain ⟨f, v⟩ := p
      rw [build_nt_fields]
      rw [show lookupStr decoded f = some v from hall (f, v) (by simp)]
      rw [ih (fun q hq => hall q (by simp [hq]))]

/-- Encoding the fields of a namedtuple produces, entrywise, the field name
as a string key and an encoding that decodes back to the field value. -/
theorem nt_items_spec (fs : List (String × PyVal))
    (hRT : ∀ p ∈ fs, RoundTrips p.2) :
    ∃ entries, nt_items fs = .ok entries ∧
      List.Forall₂ (fun (p : String × PyVal) (q : PyKey × PyVal) =>
        q.1 = PyKey.s p.1 ∧
        ∀ name path, from_state_dict p.2 q.2 name path = .ok p.2) fs entries := by
  induction fs with
  | nil => exact ⟨[], by rw [nt_items], List.Forall₂.nil⟩
  | cons p rest ih =>
      obtain ⟨f, v⟩ := p
      obtain ⟨w, hw, hdec⟩ := hRT (f, v) (by simp)
      obtain ⟨tail, htail, hrel⟩ := ih (fun q hq => hRT q (by simp [hq]))
      refine ⟨(.s f, w) :: tail, ?_, List.Forall₂.cons ⟨rfl, hdec⟩ hrel⟩
      rw [nt_items, hw, htail]

/-- The first components of pairwise-related lists. -/
theorem forall₂_keys {α β γ : Type} (f : α → γ) (g : β → γ)
    {R : α → β → Prop} (hR : ∀ a b, R a b → g b = f a) :
    ∀ {l₁ : List α} {l₂ : List β}, List.Forall₂ R l₁ l₂ → l₂.map g = l₁.map f := by
  intro l₁ l₂ h
  induction h with
  | nil => rfl
  | cons hpq _ ih => simp [ih, hR _ _ hpq]

/-- Elementwise reading of `wfL`. -/
theorem wfL_iff (xs : List PyVal) : wfL xs = true ↔ ∀ x ∈ xs, wfB x = true := by
  induction xs with
  | nil => simp [wfL]
  | cons x rest ih =>
      rw [wfL, Bool.and_eq_true, ih]
      constructor
      · intro ⟨h1, h2⟩ y hy
        rcases List.mem_cons.mp hy with h | h
        · rw [h]; exact h1
        · exact h2 y h
      · intro h
        exact ⟨h x (by simp), fun y hy => h y (by simp [hy])⟩

/-- Elementwise reading of `wfKV`. -/
theorem wfKV_iff (es : List (PyKey × PyVal)) : wfKV es = true ↔ ∀ p ∈ es, wfB p.2 = true := by
  induction es with
  | nil => simp [wfKV]
  | cons p rest ih =>
      obtain ⟨k, v⟩ := p
      rw [wfKV, Bool.and_eq_true, ih]
      constructor
      · intro ⟨h1, h2⟩ q hq
        rcases List.mem_cons.mp hq with h | h
        · rw [h]; exact h1
        · exact h2 q h
      · intro h
        exact ⟨h (k, v) (by simp), fun q hq => h q (by simp [hq])⟩

/-- Elementwise reading of `wfSV`. -/
theorem wfSV_iff (fs : List (String × PyVal)) : wfSV fs = true ↔ ∀ p ∈ fs, wfB p.2 = true := by
  induction fs with
  | nil => simp [wfSV]
  | cons p rest ih =>
      obtain ⟨k, v⟩ := p
      rw [wfSV, Bool.and_eq_true, ih]
      constructor
      · intro ⟨h1, h2⟩ q hq
        rcases List.mem_cons.mp hq with h | h
        · rw [h]; exact h1
        · exact h2 q h
      · intro h
        exact ⟨h (k, v) (by simp), fun q hq => h q (by simp [hq])⟩

/-- A mapping whose keys are all strings passes the key check. -/
theorem checkStateDictKeys_str (es : List (PyKey × PyVal))
    (h : ∀ p ∈ es, ∃ t, p.1 = PyKey.s t) :
    checkStateDictKeys (.dict es) = .ok (.dict es) := by
  have hfind : es.find? (fun p => decide (pyTypeName p.1 ≠ "str")) = none := by
    rw [List.find?_eq_none]
    intro p hp
    obtain ⟨t, ht⟩ := h p hp
    simp [ht, pyTypeName]
  rw [checkStateDictKeys, hfind]

/-- Every model value has positive size. -/
theorem one_le_sizeOf_pyval (t : PyVal) : 1 ≤ sizeOf t := by
  cases t <;> simp_arith

/-- The second component of a pair is smaller than the pair. -/
theorem sizeOf_snd_lt {α β : Type} [SizeOf α] [SizeOf β] (p : α × β) :
    sizeOf p.2 < sizeOf p := by
  obtain ⟨a, b⟩ := p
  simp_arith

/-- The bounded form of the round-trip: every well-formed target of size at
most `N` encodes successfully and decodes back from its own encoding. -/
theorem roundtrip_bounded :
    ∀ (N : Nat) (t : PyVal), sizeOf t ≤ N → wfB t = true → RoundTrips t := by
  intro N
  induction N with
  | zero =>
      intro t hsize _
      have := one_le_sizeOf_pyval t
      omega
  | succ N ih =>
      intro t hsize hwf
      cases t with
      | leaf v =>
          exact ⟨.leaf v, by simp [to_state_dict], fun name path => by simp [from_state_dict]⟩
      | list xs =>
          rw [wfB] at hwf
          have hRT : ∀ x ∈ xs, RoundTrips x := fun x hx =>
            ih x (by
              have h1 := List.sizeOf_lt_of_mem hx
              have h2 : sizeOf (PyVal.list xs) = 1 + sizeOf xs := by simp
              omega) ((wfL_iff xs).mp hwf x hx)
          obtain ⟨entries, hitems, hlen, hkeys, hrest⟩ := list_roundtrip xs hRT 0
          refine ⟨.dict entries, ?_, ?_⟩
          · simp only [to_state_dict, _list_state_dict, hitems]
            exact checkStateDictKeys_str entries (fun p hp => by
              obtain ⟨m, hm, _⟩ := hkeys p hp
              exact ⟨pyNatStr m, hm⟩)
          · intro name path
            simp only [from_state_dict]
            rw [_restore_list, if_neg (by omega)]
            simp only [hrest (path ++ [name])]
      | tuple xs =>
          rw [wfB] at hwf
          have hRT : ∀ x ∈ xs, RoundTrips x := fun x hx =>
            ih x (by
              have h1 := List.sizeOf_lt_of_mem hx
              have h2 : sizeOf (PyVal.tuple xs) = 1 + sizeOf xs := by simp
              omega) ((wfL_iff xs).mp hwf x hx)
          obtain ⟨entries, hitems, hlen, hkeys, hrest⟩ := list_roundtrip xs hRT 0
          refine ⟨.dict entries, ?_, ?_⟩
          · simp only [to_state_dict, _list_state_dict, hitems]
            exact checkStateDictKeys_str entries (fun p hp => by
              obtain ⟨m, hm, _⟩ := hkeys p hp
              exact ⟨pyNatStr m, hm⟩)
          · intro name path
            simp only [from_state_dict]
            rw [_restore_list, if_neg (by omega)]
            simp only [hrest (path ++ [name])]
      | dict es =>
          rw [wfB, Bool.and_eq_true, decide_eq_true_eq] at hwf
          obtain ⟨hnd, hkv⟩ := hwf
          have hRT : ∀ p ∈ es, RoundTrips p.2 := fun p hp =>
            ih p.2 (by
              have h1 := List.sizeOf_lt_of_mem hp
              have h2 := sizeOf_snd_lt p
              have h3 : sizeOf (PyVal.dict es) = 1 + sizeOf es := by simp
              omega) ((wfKV_iff es).mp hkv p hp)
          obtain ⟨entries, hitems, hkeysmap, hrest⟩ := dict_roundtrip es hnd hRT
          refine ⟨.dict entries, ?_, ?_⟩
          · simp only [to_state_dict]
            rw [_dict_state_dict]
            rw [if_neg (by rw [List.dedup_eq_self.mpr hnd]; simp)]
            simp only [hitems]
            exact checkStateDictKeys_str entries (fun p hp => by
              have : p.1 ∈ entries.map Prod.fst := List.mem_map_of_mem Prod.fst hp
              rw [hkeysmap] at this
              obtain ⟨q, _, hq⟩ := List.mem_map.mp this
              exact ⟨pyStr q.1, hq.symm⟩)
          · intro name path
            simp only [from_state_dict]
            rw [_restore_dict]
            have hdiff : (((es.map (fun p => pyStr p.1)).dedup).filter
                (fun s => !(entries.any (fun q => decide (q.1 = PyKey.s s))))) = [] := by
              rw [List.filter_eq_nil_iff]
              intro s hs
              rw [List.mem_dedup] at hs
              obtain ⟨p, hp, hps⟩ := List.mem_map.mp hs
              have : PyKey.s s ∈ entries.map Prod.fst := by
                rw [hkeysmap]
                exact List.mem_map.mpr ⟨p, hp, by rw [hps]⟩
              obtain ⟨q, hq, hqk⟩ := List.mem_map.mp this
              simp only [Bool.not_eq_true', Bool.not_eq_false, List.any_eq_true,
                decide_eq_true_eq]
              exact ⟨q, hq, hqk⟩
            rw [if_neg (by rw [hdiff]; simp)]
            simp only [hrest (path ++ [name])]
      | namedtuple n fs =>
          rw [wfB, Bool.and_eq_true, decide_eq_true_eq] at hwf
          obtain ⟨hnd, hsv⟩ := hwf
          have hRT : ∀ p ∈ fs, RoundTrips p.2 := fun p hp =>
            ih p.2 (by
              have h1 := List.sizeOf_lt_of_mem hp
              have h2 := sizeOf_snd_lt p
              have h3 : sizeOf (PyVal.namedtuple n fs) = 1 + sizeOf n + sizeOf fs := by simp
              omega) ((wfSV_iff fs).mp hsv p hp)
          obtain ⟨entries, hitems, hrel⟩ := nt_items_spec fs hRT
          have hkeysmap : entries.map (fun q => q.1) = fs.map (fun p => PyKey.s p.1) :=
            forall₂_keys (fun p => PyKey.s p.1) (fun q => q.1) (fun a b hr => hr.1) hrel
          refine ⟨.dict entries, ?_, ?_⟩
          · simp only [to_state_dict, _namedtuple_state_dict, hitems]
            exact checkStateDictKeys_str entries (fun p hp => by
              have : p.1 ∈ entries.map (fun q => q.1) :=
                List.mem_map.mpr ⟨p, hp, rfl⟩
              rw [hkeysmap] at this
              obtain ⟨q, _, hq⟩ := List.mem_map.mp this
              exact ⟨q.1, hq.symm⟩)
          · intro name path
            simp only [from_state_dict]
            rw [_restore_namedtuple]
            rw [if_neg (by
              rw [hkeysmap]
              simp [List.all_eq_true])]
            have hitems2 := restore_nt_items_ok fs hnd (path ++ [name]) fs entries
              (fun p hp => hp)
              (hrel.imp (fun a b hr => ⟨hr.1, hr.2 a.1 (path ++ [name])⟩))
            simp only [hitems2]
            rw [build_nt_fields_of fs fs (fun p hp => by
              obtain ⟨a, b⟩ := p
              exact lookupStr_nodup fs hnd a b hp)]
      | partialApp fn args kws =>
          rw [wfB.eq_def] at hwf
          cases args with
          | leaf v => simp at hwf
          | list xs => simp at hwf
          | dict es => simp at hwf
          | namedtuple n2 fs2 => simp at hwf
          | partialApp f2 a2 k2 => simp at hwf
          | tuple l =>
          cases kws with
          | leaf v => simp at hwf
          | list xs => simp at hwf
          | tuple xs => simp at hwf
          | namedtuple n2 fs2 => simp at hwf
          | partialApp f2 a2 k2 => simp at hwf
          | dict es2 =>
          simp only [Bool.true_and, Bool.and_eq_true] at hwf
          obtain ⟨⟨hstr, hwfa⟩, hwfk⟩ := hwf
          have hsz : sizeOf (PyVal.partialApp fn (.tuple l) (.dict es2)) =
              1 + fn + sizeOf (PyVal.tuple l) + sizeOf (PyVal.dict es2) := by simp
          obtain ⟨sa, hsa, hdeca⟩ := ih (.tuple l)
            (by have := one_le_sizeOf_pyval (.dict es2); omega) hwfa
          obtain ⟨sk, hsk, hdeck⟩ := ih (.dict es2)
            (by have := one_le_sizeOf_pyval (.tuple l); omega) hwfk
          refine ⟨.dict [(.s "args", sa), (.s "keywords", sk)], ?_, ?_⟩
          · simp only [to_state_dict] at hsa hsk ⊢
            simp only [hsa, hsk]
            exact checkStateDictKeys_str _ (by
              intro p hp
              rcases List.mem_cons.mp hp with h | h
              · exact ⟨"args", by rw [h]⟩
              · rcases List.mem_cons.mp h with h2 | h2
                · exact ⟨"keywords", by rw [h2]⟩
                · exact absurd h2 (by simp))
          · intro name path
            simp only [from_state_dict]
            rw [_restore_partial_app]
            rw [show dictGet [(PyKey.s "args", sa), (PyKey.s "keywords", sk)] (.s "args") =
              some sa from by rw [dictGet_cons, if_pos rfl]]
            simp only [hdeca "." (path ++ [name])]
            rw [show splatArgs (.tuple l) = .ok l from rfl]
            rw [show dictGet [(PyKey.s "args", sa), (PyKey.s "keywords", sk)]
                (.s "keywords") = some sk from by
              rw [dictGet_cons, if_neg (by simp), dictGet_cons, if_pos rfl]]
            simp only [hdeck "." (path ++ [name])]
            have hfindnone : es2.find? (fun p => decide (pyTypeName p.1 ≠ "str")) = none := by
              rw [List.find?_eq_none]
              intro p hp
              have := (List.all_eq_true.mp hstr) p hp
              simp only [decide_eq_true_eq] at this
              simp [this]
            rw [show splatKeywords (.dict es2) = .ok es2 from by
              rw [splatKeywords, hfindnone]]

/-- C1: every target built only from the registered container types (lists,
tuples, dicts with unique key string forms, namedtuples, partial
applications) and leaf values round-trips: `to_state_dict` succeeds and
`from_state_dict` on the produced state restores a structurally equal
value, for arbitrarily nested combinations. -/
theorem c1_roundtrip (t : PyVal) (h : wfB t = true) :
    ∃ s, to_state_dict t = .ok s ∧ ∀ name path, from_state_dict t s name path = .ok t :=
  roundtrip_bounded (sizeOf t) t (le_refl _) h

/-- C1 witness: a nested target exercising every registered type — a dict
with an int key and string keys, containing a list, a tuple, a namedtuple,
and a partial application — round-trips through its own encoding. -/
theorem c1_roundtrip_witness :
    ∃ s, to_state_dict (.dict [(.i 1, .list [.leaf (.i 7), .tuple [.leaf (.s "x")]]),
        (.s "nt", .namedtuple "Point" [("x", .leaf (.i 1)), ("y", .leaf (.i 2))]),
        (.s "p", .partialApp 3 (.tuple [.leaf (.i 9)])
          (.dict [(.s "k", .leaf (.i 0))]))]) = .ok s ∧
      from_state_dict (.dict [(.i 1, .list [.leaf (.i 7), .tuple [.leaf (.s "x")]]),
        (.s "nt", .namedtuple "Point" [("x", .leaf (.i 1)), ("y", .leaf (.i 2))]),
        (.s "p", .partialApp 3 (.tuple [.leaf (.i 9)])
          (.dict [(.s "k", .leaf (.i 0))]))]) s "." [] =
      .ok (.dict [(.i 1, .list [.leaf (.i 7), .tuple [.leaf (.s "x")]]),
        (.s "nt", .namedtuple "Point" [("x", .leaf (.i 1)), ("y", .leaf (.i 2))]),
        (.s "p", .partialApp 3 (.tuple [.leaf (.i 9)])
          (.dict [(.s "k", .leaf (.i 0))]))]) := by
  obtain ⟨s, henc, hdec⟩ := c1_roundtrip
    (.dict [(.i 1, .list [.leaf (.i 7), .tuple [.leaf (.s "x")]]),
      (.s "nt", .namedtuple "Point" [("x", .leaf (.i 1)), ("y", .leaf (.i 2))]),
      (.s "p", .partialApp 3 (.tuple [.leaf (.i 9)])
        (.dict [(.s "k", .leaf (.i 0))]))])
    (by simp +decide [wfB, wfL, wfKV, wfSV])
  exact ⟨s, henc, hdec "." []⟩

end Serialization
